import Mathlib

/-!
# Verification of the `knitvis` chart/palette data model

Shallow embedding of `knitvis/palette.py` (`KnittingColorPalette`) and
`knitvis/chart.py` (`KnittingChart`) into Lean, together with proofs of the
specification's claims about them.

Conventions of the embedding:
* Python ints are `Int` (pattern values, color indices) or `Nat` (shapes);
  RGB colors are integer triples `Int × Int × Int` (numpy `dtype=int`).
* numpy 2-d arrays are `List (List _)`; rectangularity is tracked by a
  `Shape` predicate where needed.
* Python `None` results are `Option`; raised exceptions are modelled with an
  explicit error type: a mutating method returns the (possibly partially
  mutated) object together with `Except`/`Option` of the error, mirroring
  the order of mutations and raises in the source.
* `f"{s}{n}"` string formatting uses decimal numerals, embedded by `natStr`.
-/

namespace Knitvis

/-- RGB color triple (numpy `dtype=int`, so unbounded `Int`). -/
abbrev Color := Int × Int × Int

/-! ## Decimal numerals (Python f-string `f"{base}{n}"`) -/

/-- A decimal digit character (`0 ≤ d < 10`; other inputs unused). -/
def digitChar : Nat → Char
  | 0 => '0' | 1 => '1' | 2 => '2' | 3 => '3' | 4 => '4'
  | 5 => '5' | 6 => '6' | 7 => '7' | 8 => '8' | 9 => '9'
  | _ => '*'

/-- Decimal digit characters of `n`, most significant first. -/
def natChars (n : Nat) : List Char :=
  if _h : n < 10 then [digitChar n]
  else natChars (n / 10) ++ [digitChar (n % 10)]
  decreasing_by exact Nat.div_lt_self (by omega) (by omega)

theorem natChars_def (n : Nat) :
    natChars n = if n < 10 then [digitChar n]
      else natChars (n / 10) ++ [digitChar (n % 10)] := by
  rw [natChars]
  split <;> simp_all

/-- Decimal string of `n`, as produced by Python's `str`/f-string. -/
def natStr (n : Nat) : String := ⟨natChars n⟩

theorem natChars_ne_nil (n : Nat) : natChars n ≠ [] := by
  rw [natChars_def]
  split
  · simp
  · simp

theorem digitChar_isDigit {d : Nat} (h : d < 10) : (digitChar d).isDigit = true := by
  interval_cases d <;> decide

theorem digitChar_injOn {d e : Nat} (hd : d < 10) (he : e < 10)
    (h : digitChar d = digitChar e) : d = e := by
  interval_cases d <;> interval_cases e <;> first | rfl | (exact absurd h (by decide))

theorem natChars_isDigit (n : Nat) : ∀ c ∈ natChars n, c.isDigit = true := by
  induction n using Nat.strong_induction_on with
  | _ n ih =>
    intro c hc
    rw [natChars_def] at hc
    split at hc
    · simp only [List.mem_singleton] at hc
      subst hc
      exact digitChar_isDigit (by omega)
    · rename_i h
      rw [List.mem_append, List.mem_singleton] at hc
      rcases hc with hc | hc
      · exact ih (n / 10) (Nat.div_lt_self (by omega) (by omega)) c hc
      · subst hc
        exact digitChar_isDigit (Nat.mod_lt _ (by omega))

theorem natChars_injective : Function.Injective natChars := by
  intro m n h
  induction m using Nat.strong_induction_on generalizing n with
  | _ m ih =>
    rw [natChars_def m, natChars_def n] at h
    split at h <;> split at h
    · rename_i hm hn
      simp only [List.cons.injEq] at h
      exact digitChar_injOn hm hn h.1
    · exfalso
      have hlen := congrArg List.length h
      simp only [List.length_append, List.length_singleton, List.length_cons,
        List.length_nil] at hlen
      have hne : (natChars (n / 10)).length ≠ 0 := by
        simpa [List.length_eq_zero] using natChars_ne_nil (n / 10)
      omega
    · exfalso
      have hlen := congrArg List.length h
      simp only [List.length_append, List.length_singleton, List.length_cons,
        List.length_nil] at hlen
      have hne : (natChars (m / 10)).length ≠ 0 := by
        simpa [List.length_eq_zero] using natChars_ne_nil (m / 10)
      omega
    · rename_i hm hn
      obtain ⟨h3, h4⟩ := List.append_inj' h rfl
      simp only [List.cons.injEq] at h4
      have hmod : m % 10 = n % 10 :=
        digitChar_injOn (Nat.mod_lt _ (by omega)) (Nat.mod_lt _ (by omega)) h4.1
      have hdiv : m / 10 = n / 10 :=
        ih (m / 10) (Nat.div_lt_self (by omega) (by omega)) h3
      omega

theorem natStr_injective : Function.Injective natStr := by
  intro m n h
  exact natChars_injective (congrArg String.data h)

theorem data_natStr (n : Nat) : (natStr n).data = natChars n := rfl

/-! ## Small list helpers shared by the embedding -/

/-- First index of `c` in `l` (numpy `np.where(... == c)[0][0]`,
Python `list.index`). -/
def idxOf? {α : Type} [DecidableEq α] : List α → α → Option Nat
  | [], _ => none
  | x :: xs, c => if x = c then some 0 else (idxOf? xs c).map (· + 1)

theorem idxOf?_eq_none_iff {α : Type} [DecidableEq α] (l : List α) (c : α) :
    idxOf? l c = none ↔ c ∉ l := by
  induction l with
  | nil => simp [idxOf?]
  | cons x xs ih =>
    simp only [idxOf?]
    by_cases hx : x = c
    · simp [hx]
    · simp only [if_neg hx, Option.map_eq_none', List.mem_cons]
      rw [ih]
      constructor
      · rintro h (rfl | h2)
        · exact hx rfl
        · exact h h2
      · intro h h2
        exact h (Or.inr h2)

theorem idxOf?_lt_length {α : Type} [DecidableEq α] {l : List α} {c : α} {i : Nat}
    (h : idxOf? l c = some i) : i < l.length := by
  induction l generalizing i with
  | nil => simp [idxOf?] at h
  | cons x xs ih =>
    simp only [idxOf?] at h
    split at h
    · simp only [Option.some.injEq] at h
      simp only [List.length_cons]
      omega
    · simp only [Option.map_eq_some'] at h
      obtain ⟨j, hj, rfl⟩ := h
      have := ih hj
      simp only [List.length_cons]
      omega

theorem idxOf?_getElem {α : Type} [DecidableEq α] {l : List α} {c : α} {i : Nat}
    (h : idxOf? l c = some i) (hi : i < l.length) : l[i] = c := by
  induction l generalizing i with
  | nil => simp [idxOf?] at h
  | cons x xs ih =>
    simp only [idxOf?] at h
    split at h
    · rename_i hx
      simp only [Option.some.injEq] at h
      subst h
      simpa using hx
    · simp only [Option.map_eq_some'] at h
      obtain ⟨j, hj, rfl⟩ := h
      have hjl := idxOf?_lt_length hj
      simpa using ih hj hjl

theorem idxOf?_isSome_of_mem {α : Type} [DecidableEq α] {l : List α} {c : α}
    (h : c ∈ l) : ∃ i, idxOf? l c = some i := by
  cases hx : idxOf? l c with
  | none => exact absurd h ((idxOf?_eq_none_iff l c).1 hx)
  | some i => exact ⟨i, rfl⟩

instance {ε α : Type} [DecidableEq ε] [DecidableEq α] : DecidableEq (Except ε α) :=
  fun x y =>
    match x, y with
    | .ok a, .ok b =>
        if h : a = b then isTrue (by rw [h]) else isFalse (by intro hh; cases hh; exact h rfl)
    | .error a, .error b =>
        if h : a = b then isTrue (by rw [h]) else isFalse (by intro hh; cases hh; exact h rfl)
    | .ok _, .error _ => isFalse (by intro hh; cases hh)
    | .error _, .ok _ => isFalse (by intro hh; cases hh)

/-- Cell access in a `List (List α)` grid (numpy `a[i, j]`); out-of-range
access is unreachable in all uses, `default` stands for the crash. -/
def getCell {α : Type} [Inhabited α] (m : List (List α)) (i j : Nat) : α :=
  (m.getD i []).getD j default

/-- `m` is a rectangular `r × c` grid (numpy shape `(r, c)`). -/
def Shape {α : Type} (m : List (List α)) (r c : Nat) : Prop :=
  m.length = r ∧ ∀ row ∈ m, row.length = c

instance {α : Type} (m : List (List α)) (r c : Nat) : Decidable (Shape m r c) := by
  unfold Shape; infer_instance

/-- Build an `r × c` grid from a cell function (the nested
`for i in range(r): for j in range(c):` fill loops). -/
def mkGrid {α : Type} (r c : Nat) (f : Nat → Nat → α) : List (List α) :=
  (List.range r).map fun i => (List.range c).map fun j => f i j

theorem shape_mkGrid {α : Type} (r c : Nat) (f : Nat → Nat → α) :
    Shape (mkGrid r c f) r c := by
  constructor
  · simp [mkGrid]
  · intro row hrow
    simp only [mkGrid, List.mem_map, List.mem_range] at hrow
    obtain ⟨i, _, rfl⟩ := hrow
    simp

theorem getCell_mkGrid {α : Type} [Inhabited α] {r c : Nat} (f : Nat → Nat → α)
    {i j : Nat} (hi : i < r) (hj : j < c) : getCell (mkGrid r c f) i j = f i j := by
  unfold getCell mkGrid
  have h1 : (((List.range r).map fun i => (List.range c).map fun j => f i j).getD i []) =
      (List.range c).map fun j => f i j := by
    rw [List.getD_eq_getElem _ _ (by simpa using hi)]
    simp
  rw [h1, List.getD_eq_getElem _ _ (by simpa using hj)]
  simp

theorem getCell_eq_getElem {α : Type} [Inhabited α] {m : List (List α)}
    {i j : Nat} (him : i < m.length) (hjm : j < m[i].length) :
    getCell m i j = m[i][j] := by
  unfold getCell
  rw [List.getD_eq_getElem _ _ him, List.getD_eq_getElem _ _ hjm]

/-! ## `KnittingColorPalette` (knitvis/palette.py) -/

/-- Raised-exception kinds used by the embedded methods. -/
inductive KErr where
  | indexError
  | valueError
  | typeError
deriving DecidableEq

/-- `KnittingColorPalette.REFERENCE_COLORS`: `(full name, short tag, RGB)`,
in the Python dict's (insertion) order, as iterated by `.keys()`/`.values()`. -/
def refColors : List (String × String × Color) :=
  [("White", "W", (255, 255, 255)),
   ("Black", "B", (0, 0, 0)),
   ("Gray", "Gy", (128, 128, 128)),
   ("Red", "R", (255, 0, 0)),
   ("Orange", "O", (255, 165, 0)),
   ("Yellow", "Y", (255, 255, 0)),
   ("Green", "Gr", (0, 128, 0)),
   ("Blue", "Bl", (0, 0, 255)),
   ("Navy", "N", (0, 0, 128)),
   ("Purple", "P", (128, 0, 128)),
   ("Pink", "Pi", (255, 182, 193)),
   ("Brown", "Br", (165, 42, 42))]

def refName (r : Nat) : String := (refColors.getD r ("", "", (0, 0, 0))).1

def refTag (r : Nat) : String := (refColors.getD r ("", "", (0, 0, 0))).2.1

/-- Squared Euclidean distance in RGB space (monotone image of the KDTree's
Euclidean metric, hence the same argmin). -/
def dist2 (a b : Color) : Int :=
  (a.1 - b.1) ^ 2 + (a.2.1 - b.2.1) ^ 2 + (a.2.2 - b.2.2) ^ 2

def argminAux (c : Color) : List Color → Nat → Nat × Int → Nat
  | [], _, best => best.1
  | r :: rs, i, best =>
      if dist2 c r < best.2 then argminAux c rs (i + 1) (i, dist2 c r)
      else argminAux c rs (i + 1) best

/-- `KDTree(ref_colors).query(color)`: index of the reference color nearest to
`c` (first of the minima; `scipy` returns the smallest index on exact ties). -/
def nearestRefIdx (c : Color) : Nat :=
  match refColors.map (fun t => t.2.2) with
  | [] => 0
  | r :: rs => argminAux c rs 1 (0, dist2 c r)

theorem argminAux_lt (c : Color) (l : List Color) (i : Nat) (best : Nat × Int)
    (n : Nat) (hb : best.1 < n) (hl : i + l.length ≤ n) :
    argminAux c l i best < n := by
  induction l generalizing i best with
  | nil => exact hb
  | cons r rs ih =>
    simp only [argminAux]
    split
    · exact ih (i + 1) (i, dist2 c r) (by simp at hl ⊢; omega) (by simp at hl ⊢; omega)
    · exact ih (i + 1) best hb (by simp at hl ⊢; omega)

theorem nearestRefIdx_lt (c : Color) : nearestRefIdx c < 12 := by
  unfold nearestRefIdx
  exact argminAux_lt c _ 1 (0, _) 12 (by norm_num) (by norm_num [refColors])

structure KnittingColorPalette where
  assigned_colors : List Color
  num_colors : Nat
  full_names : List String
  short_tags : List String
deriving DecidableEq

/-- The `name_counts` dict of `KnittingColorPalette.__init__`. -/
def countsGet : List (String × Nat) → String → Option Nat
  | [], _ => none
  | (k, v) :: rest, key => if k = key then some v else countsGet rest key

def countsSet : List (String × Nat) → String → Nat → List (String × Nat)
  | [], key, v => [(key, v)]
  | (k, w) :: rest, key, v =>
      if k = key then (k, v) :: rest else (k, w) :: countsSet rest key v

theorem countsGet_set_same (counts : List (String × Nat)) (k : String) (v : Nat) :
    countsGet (countsSet counts k v) k = some v := by
  induction counts with
  | nil => simp [countsSet, countsGet]
  | cons p rest ih =>
    obtain ⟨k', w⟩ := p
    simp only [countsSet]
    split
    · rename_i h
      simp [countsGet, h]
    · rename_i h
      simp [countsGet, h, ih]

theorem countsGet_set_other (counts : List (String × Nat)) (k k' : String) (v : Nat)
    (h : k' ≠ k) : countsGet (countsSet counts k v) k' = countsGet counts k' := by
  induction counts with
  | nil => simp [countsSet, countsGet, Ne.symm h]
  | cons p rest ih =>
    obtain ⟨k0, w⟩ := p
    simp only [countsSet]
    split
    · rename_i h0
      subst h0
      have hne : ¬k0 = k' := fun hh => h hh.symm
      simp [countsGet, hne]
    · simp only [countsGet]
      split
      · rfl
      · exact ih

/-- Name-assignment loop of `KnittingColorPalette.__init__`: returns the
`assigned_full_names` and `assigned_short_tags` lists. -/
def assignNames : List Color → List (String × Nat) → List String × List String
  | [], _ => ([], [])
  | c :: rest, counts =>
      let r := nearestRefIdx c
      let base_name := refName r
      let short_tag := refTag r
      match countsGet counts base_name with
      | some k =>
          let rec_result := assignNames rest (countsSet counts base_name (k + 1))
          ((base_name ++ natStr (k + 1)) :: rec_result.1,
           (short_tag ++ natStr (k + 1)) :: rec_result.2)
      | none =>
          let rec_result := assignNames rest (countsSet counts base_name 1)
          (base_name :: rec_result.1, short_tag :: rec_result.2)

/-- `KnittingColorPalette.__init__` (construction from a list of colors). -/
def paletteInit (colors : List Color) : KnittingColorPalette :=
  let names := assignNames colors []
  { assigned_colors := colors
    num_colors := colors.length
    full_names := names.1
    short_tags := names.2 }

/-- `KnittingColorPalette.get_index_by_color`: first exact match, else `None`. -/
def get_index_by_color (p : KnittingColorPalette) (c : Color) : Option Nat :=
  idxOf? p.assigned_colors c

/-- `KnittingColorPalette.get_color_by_index`: bounds-checked lookup. -/
def get_color_by_index (p : KnittingColorPalette) (i : Int) : Option Color :=
  if 0 ≤ i ∧ i < p.num_colors then some (p.assigned_colors.getD i.toNat default)
  else none

/-- `KnittingColorPalette.get_color_by_tag`: first tag match, else `None`. -/
def get_color_by_tag (p : KnittingColorPalette) (t : String) : Option Color :=
  (idxOf? p.short_tags t).map fun i => p.assigned_colors.getD i default

/-- `KnittingColorPalette.add_color`. -/
def add_color (p : KnittingColorPalette) (color : Color) :
    KnittingColorPalette × Int :=
  match idxOf? p.assigned_colors color with
  | some existing_idx => (p, existing_idx)
  | none =>
      let r := nearestRefIdx color
      let base_name := refName r
      let short_tag := refTag r
      let count := (p.full_names.filter fun s => base_name.isPrefixOf s).length
      let full_name := if count > 0 then base_name ++ natStr (count + 1) else base_name
      let short_code := if count > 0 then short_tag ++ natStr (count + 1) else short_tag
      ({ assigned_colors := p.assigned_colors ++ [color]
         full_names := p.full_names ++ [full_name]
         short_tags := p.short_tags ++ [short_code]
         num_colors := p.num_colors + 1 }, (p.num_colors : Int))

structure PaletteDict where
  colors : List Color
  full_names : List String
  short_tags : List String
deriving DecidableEq

/-- `KnittingColorPalette.to_dict`. -/
def palette_to_dict (p : KnittingColorPalette) : PaletteDict :=
  ⟨p.assigned_colors, p.full_names, p.short_tags⟩

/-- `KnittingColorPalette.from_dict`: validates the three parallel lengths,
builds a palette from the colors, then overrides names/tags verbatim. -/
def palette_from_dict (d : PaletteDict) : Except KErr KnittingColorPalette :=
  if d.full_names.length = d.colors.length ∧ d.short_tags.length = d.colors.length then
    .ok { paletteInit d.colors with
            full_names := d.full_names
            short_tags := d.short_tags }
  else .error .valueError

/-! ## `KnittingChart` (knitvis/chart.py) -/

def STITCH_ORDER : List String :=
  ["K", "P", "YO", "K2tog", "SSK", "C4F", "C4B", "BO", "CO"]

def STITCH_SYMBOLS : List (String × String) :=
  [("K", "V"), ("P", "●"), ("YO", "O"), ("K2tog", "/"), ("SSK", "\\"),
   ("C4F", "X"), ("C4B", "X"), ("BO", "-"), ("CO", "_")]

/-- Python `dict.get(key, dflt)` on an association list. -/
def dictGet : List (String × String) → String → String → String
  | [], _, dflt => dflt
  | (k, v) :: rest, key, dflt => if k = key then v else dictGet rest key dflt

/-- `KnittingChart.stitch_to_index` (single-string form): first index in
`STITCH_ORDER`, `-1` if absent. -/
def stitch_to_index (stitch : String) : Int :=
  match idxOf? STITCH_ORDER stitch with
  | some i => (i : Int)
  | none => -1

/-- `KnittingChart.index_to_stitch` (single-integer form). -/
def index_to_stitch (index : Int) : String :=
  if 0 ≤ index ∧ index < (STITCH_ORDER.length : Int) then
    STITCH_ORDER.getD index.toNat ""
  else "Unknown"

/-- `KnittingChart.index_to_symbol` (single-integer form). -/
def index_to_symbol (index : Int) : String :=
  dictGet STITCH_SYMBOLS (index_to_stitch index) "?"

/-- Truncation to `n` characters performed by numpy `<Un` string dtypes. -/
def truncStr (n : Nat) (s : String) : String := ⟨s.data.take n⟩

/-- Lexicographic order on RGB rows, the order `np.unique(..., axis=0)` sorts by. -/
def colorLE (a b : Color) : Prop :=
  a.1 < b.1 ∨ (a.1 = b.1 ∧ (a.2.1 < b.2.1 ∨ (a.2.1 = b.2.1 ∧ a.2.2 ≤ b.2.2)))

instance : DecidableRel colorLE := fun a b => by unfold colorLE; infer_instance

/-- `np.unique` of a list of RGB rows: deduplicated and sorted ascending. -/
def uniqueSorted (l : List Color) : List Color :=
  l.dedup.insertionSort colorLE

/-- `np.unique` of an integer array: deduplicated and sorted ascending. -/
def uniqueSortedInt (l : List Int) : List Int :=
  l.dedup.insertionSort (· ≤ ·)

structure KnittingChart where
  pattern : List (List Int)
  rows : Nat
  cols : Nat
  color_indices : List (List Int)
  color_palette : KnittingColorPalette
deriving DecidableEq

/-- The `colors` argument of `KnittingChart.__init__`: `None`, a single RGB
triple, or a full per-cell RGB array. -/
inductive ChartColors where
  | noColors
  | single (c : Color)
  | full (g : List (List Color))

/-- Per-cell palette lookup of `KnittingChart.__init__` (always found; `-1`
marks the unreachable `None` case, which in Python would crash `np.array`). -/
def lookupIdx (palette : KnittingColorPalette) (c : Color) : Int :=
  match get_index_by_color palette c with
  | some i => (i : Int)
  | none => -1

/-- `KnittingChart.__init__`. `rows, cols = self.pattern.shape`; the palette is
built from `np.unique` of the flattened colors, and `color_indices` from
per-cell `get_index_by_color` lookups. -/
def chartInit (pattern : List (List Int)) (colors : ChartColors) :
    Except KErr KnittingChart :=
  let rows := pattern.length
  let cols := (pattern.headD []).length
  let colors_array : Except KErr (List (List Color)) :=
    match colors with
    | .noColors => .ok (mkGrid rows cols fun _ _ => ((128 : Int), (128 : Int), (128 : Int)))
    | .single c => .ok (mkGrid rows cols fun _ _ => c)
    | .full g => if Shape g rows cols then .ok g else .error .valueError
  match colors_array with
  | .error e => .error e
  | .ok ca =>
      let flat_colors := ca.flatten
      let unique_colors := uniqueSorted flat_colors
      let palette := paletteInit unique_colors
      let color_indices := ca.map (List.map (lookupIdx palette))
      .ok { pattern := pattern, rows := rows, cols := cols,
            color_indices := color_indices, color_palette := palette }

/-- `self.pattern.shape` of the numpy array (rectangularity assumed where used). -/
def patShape (m : List (List Int)) : Nat × Nat := (m.length, (m.headD []).length)

/-- `KnittingChart.get_symbolic_pattern`: full-size `np.full(pattern.shape, '?',
dtype='<U2')` grid with only the requested ranges filled in. -/
def get_symbolic_pattern (g : KnittingChart)
    (column_range row_range : Option (Nat × Nat)) : List (List String) :=
  let cr := column_range.getD (0, g.cols)
  let rr := row_range.getD (0, g.rows)
  mkGrid g.pattern.length (g.pattern.headD []).length fun i j =>
    if rr.1 ≤ i ∧ i < rr.2 ∧ cr.1 ≤ j ∧ j < cr.2 then
      truncStr 2 (index_to_symbol (getCell g.pattern i j))
    else "?"

/-- `KnittingChart.get_text_pattern`: full-size `np.full(pattern.shape,
'Unknown', dtype='<U10')` grid with only the requested ranges filled in. -/
def get_text_pattern (g : KnittingChart)
    (column_range row_range : Option (Nat × Nat)) : List (List String) :=
  let cr := column_range.getD (0, g.cols)
  let rr := row_range.getD (0, g.rows)
  mkGrid g.pattern.length (g.pattern.headD []).length fun i j =>
    if rr.1 ≤ i ∧ i < rr.2 ∧ cr.1 ≤ j ∧ j < cr.2 then
      truncStr 10 (index_to_stitch (getCell g.pattern i j))
    else "Unknown"

/-- `KnittingChart.get_symbolic_colors`: `np.zeros((self.rows, self.cols, 3))`
with the requested ranges filled by palette lookup (`None` lookups, which
would crash the numpy assignment, surface as the `(0,0,0)` default). -/
def get_symbolic_colors (g : KnittingChart)
    (column_range row_range : Option (Nat × Nat)) : List (List Color) :=
  let cr := column_range.getD (0, g.cols)
  let rr := row_range.getD (0, g.rows)
  mkGrid g.rows g.cols fun i j =>
    if rr.1 ≤ i ∧ i < rr.2 ∧ cr.1 ≤ j ∧ j < cr.2 then
      (get_color_by_index g.color_palette (getCell g.color_indices i j)).getD (0, 0, 0)
    else (0, 0, 0)

/-- `KnittingChart.get_rgb_colors` (same body as `get_symbolic_colors`). -/
def get_rgb_colors (g : KnittingChart)
    (column_range row_range : Option (Nat × Nat)) : List (List Color) :=
  let cr := column_range.getD (0, g.cols)
  let rr := row_range.getD (0, g.rows)
  mkGrid g.rows g.cols fun i j =>
    if rr.1 ≤ i ∧ i < rr.2 ∧ cr.1 ≤ j ∧ j < cr.2 then
      (get_color_by_index g.color_palette (getCell g.color_indices i j)).getD (0, 0, 0)
    else (0, 0, 0)

/-- Single-cell write `m[i][j] = v`. -/
def setCell {α : Type} [Inhabited α] (m : List (List α)) (i j : Nat) (v : α) :
    List (List α) :=
  m.set i ((m.getD i []).set j v)

/-- `KnittingChart.optimize_color_palette`. -/
def optimize_color_palette (g : KnittingChart) : KnittingChart × Bool :=
  let used_indices := uniqueSortedInt g.color_indices.flatten
  if used_indices.length = g.color_palette.num_colors then (g, false)
  else
    let used_colors := used_indices.map fun idx =>
      (get_color_by_index g.color_palette idx).getD (0, 0, 0)
    let new_palette := paletteInit used_colors
    let new_indices := mkGrid g.rows g.cols fun i j =>
      (((idxOf? used_indices (getCell g.color_indices i j)).getD 0 : Nat) : Int)
    ({ g with color_indices := new_indices, color_palette := new_palette }, true)

/-- The `if color_rgb is not None:` block of `KnittingChart.set_stitch`:
resolve-or-append the palette index, write the cell, and compact the palette
when the overwritten index became unreferenced. `get_index_by_color` never
returns `-1`, so the Python `color_idx is None or color_idx == -1` test is
the `none` case, and the following `color_idx is not None` test is always
true. -/
def set_stitch_color_phase (g1 : KnittingChart) (r c : Nat)
    (original_color_idx : Int) (rgb : Color) : KnittingChart × Except KErr Bool :=
  let pal_idx :=
    match get_index_by_color g1.color_palette rgb with
    | some i => (g1.color_palette, (i : Int))
    | none => add_color g1.color_palette rgb
  let g2 := { g1 with color_palette := pal_idx.1,
                      color_indices := setCell g1.color_indices r c pal_idx.2 }
  if original_color_idx ≠ pal_idx.2 ∧
      ¬(g2.color_indices.any fun rowl => rowl.any fun v => v = original_color_idx) then
    ((optimize_color_palette g2).1, .ok true)
  else (g2, .ok true)

/-- `KnittingChart.set_stitch`. Returns the (possibly mutated) chart together
with the raised error or the `True` success result, mirroring the order of
mutations and raises in the source. -/
def set_stitch (g : KnittingChart) (row col : Int)
    (stitch_type : Option String) (color_rgb : Option Color) :
    KnittingChart × Except KErr Bool :=
  if ¬(0 ≤ row ∧ row < (g.rows : Int) ∧ 0 ≤ col ∧ col < (g.cols : Int)) then
    (g, .error .indexError)
  else
    let r := row.toNat
    let c := col.toNat
    let original_color_idx := getCell g.color_indices r c
    let step1 : Except KErr KnittingChart :=
      match stitch_type with
      | none => .ok g
      | some st =>
          let stitch_idx := stitch_to_index st
          if stitch_idx ≠ -1 then
            .ok { g with pattern := setCell g.pattern r c stitch_idx }
          else .error .valueError
    match step1 with
    | .error e => (g, .error e)
    | .ok g1 =>
        match color_rgb with
        | none => (g1, .ok true)
        | some rgb => set_stitch_color_phase g1 r c original_color_idx rgb

/-- The value argument of `KnittingChart.__setitem__`: a chart, or anything
else (which fails the `isinstance` check). -/
inductive SetValue where
  | chart (c : KnittingChart)
  | nonChart

/-- numpy basic slice `[lo:hi]` applied to an axis of length `n`:
indices `min lo n ≤ i < min hi n`. -/
def sliceLo (s : Nat × Nat) (n : Nat) : Nat := min s.1 n

def sliceHi (s : Nat × Nat) (n : Nat) : Nat := min s.2 n

def sliceLen (s : Nat × Nat) (n : Nat) : Nat := sliceHi s n - sliceLo s n

/-- numpy sub-array assignment `m[rs, cs] = src` (equal shapes). -/
def spliceGrid {α : Type} [Inhabited α] (m : List (List α))
    (rs cs : Nat × Nat) (src : List (List α)) : List (List α) :=
  let n := m.length
  let k := (m.headD []).length
  let r0 := sliceLo rs n
  let r1 := sliceHi rs n
  let c0 := sliceLo cs k
  let c1 := sliceHi cs k
  (List.range n).map fun i =>
    let row := m.getD i []
    (List.range row.length).map fun j =>
      if r0 ≤ i ∧ i < r1 ∧ c0 ≤ j ∧ j < c1 then getCell src (i - r0) (j - c0)
      else row.getD j default

/-- `KnittingChart.__setitem__` with a two-slice key. Raises happen before any
mutation; the success path splices the pattern, splices the full-grid RGB
image, and rebuilds the whole chart through the constructor. -/
def setitem (g : KnittingChart) (key : (Nat × Nat) × (Nat × Nat))
    (value : SetValue) : KnittingChart × Option KErr :=
  match value with
  | .nonChart => (g, some .typeError)
  | .chart v =>
      let rs := key.1
      let cs := key.2
      let target_shape := (sliceLen rs g.pattern.length,
                           sliceLen cs (g.pattern.headD []).length)
      if patShape v.pattern ≠ target_shape then (g, some .valueError)
      else
        let pattern' := spliceGrid g.pattern rs cs v.pattern
        let symbolic_colors := get_symbolic_colors g none none
        let symbolic' := spliceGrid symbolic_colors rs cs (get_symbolic_colors v none none)
        match chartInit pattern' (.full symbolic') with
        | .ok updated =>
            ({ g with pattern := updated.pattern,
                      color_indices := updated.color_indices,
                      color_palette := updated.color_palette }, none)
        | .error e => ({ g with pattern := pattern' }, some e)

structure ChartDict where
  pattern : List (List String)
  color_tags : List (List String)
  palette : PaletteDict
deriving DecidableEq

/-- `KnittingChart.to_dict`. `color_tags` has numpy dtype `<U4`, so each tag
is truncated to 4 characters on write. -/
def chart_to_dict (g : KnittingChart) : ChartDict :=
  { pattern := get_text_pattern g none none
    color_tags := mkGrid g.rows g.cols fun i j =>
      truncStr 4 (g.color_palette.short_tags.getD (getCell g.color_indices i j).toNat "")
    palette := palette_to_dict g.color_palette }

/-- `KnittingChart.from_dict`. -/
def chart_from_dict (d : ChartDict) : Except KErr KnittingChart :=
  let pattern := d.pattern.map (·.map stitch_to_index)
  match palette_from_dict d.palette with
  | .error e => .error e
  | .ok palette =>
      let rows := d.color_tags.length
      let cols := (d.color_tags.headD []).length
      let colors := mkGrid rows cols fun i j =>
        match get_color_by_tag palette (getCell d.color_tags i j) with
        | some rgb => rgb
        | none => ((128 : Int), (128 : Int), (128 : Int))
      chartInit pattern (.full colors)

/-! ## Well-formedness invariants -/

/-- The palette's parallel-array invariant. -/
def PaletteWF (p : KnittingColorPalette) : Prop :=
  p.num_colors = p.assigned_colors.length ∧
  p.full_names.length = p.assigned_colors.length ∧
  p.short_tags.length = p.assigned_colors.length

instance (p : KnittingColorPalette) : Decidable (PaletteWF p) := by
  unfold PaletteWF; infer_instance

/-- Every stored color index is a valid palette index (the C2 invariant). -/
def IdxValid (g : KnittingChart) : Prop :=
  ∀ row ∈ g.color_indices, ∀ v ∈ row, 0 ≤ v ∧ v < (g.color_palette.num_colors : Int)

instance (g : KnittingChart) : Decidable (IdxValid g) := by
  unfold IdxValid; infer_instance

/-- Full well-formedness of a chart: congruent shapes, parallel palette
arrays, and valid color indices. -/
def ChartWF (g : KnittingChart) : Prop :=
  Shape g.pattern g.rows g.cols ∧ Shape g.color_indices g.rows g.cols ∧
  PaletteWF g.color_palette ∧ IdxValid g

instance (g : KnittingChart) : Decidable (ChartWF g) := by
  unfold ChartWF; infer_instance

/-! ## Lemmas about grid cell writes -/

theorem setCell_shape {α : Type} [Inhabited α] {m : List (List α)} {rows cols : Nat}
    (hs : Shape m rows cols) (i j : Nat) (v : α) :
    Shape (setCell m i j v) rows cols := by
  obtain ⟨hlen, hrows⟩ := hs
  by_cases hi : i < m.length
  · constructor
    · simpa [setCell] using hlen
    · intro row hrow
      rcases List.mem_or_eq_of_mem_set hrow with h | h
      · exact hrows row h
      · subst h
        rw [List.length_set, List.getD_eq_getElem _ _ hi]
        exact hrows _ (List.getElem_mem hi)
  · unfold setCell
    rw [List.set_eq_of_length_le (by omega)]
    exact ⟨hlen, hrows⟩

theorem getD_set_row {α : Type} {m : List (List α)} {i : Nat} (r : List α)
    (him : i < m.length) : (m.set i r).getD i [] = r := by
  rw [List.getD_eq_getElem _ _ (by rw [List.length_set]; omega)]
  rw [List.getElem_set, if_pos rfl]

theorem getD_set_row_other {α : Type} {m : List (List α)} {i i' : Nat} (r : List α)
    (hne : i ≠ i') : (m.set i r).getD i' [] = m.getD i' [] := by
  by_cases him : i' < m.length
  · rw [List.getD_eq_getElem _ _ (by rw [List.length_set]; omega)]
    rw [List.getElem_set, if_neg hne]
    rw [List.getD_eq_getElem _ _ him]
  · rw [List.getD_eq_default _ _ (by rw [List.length_set]; omega),
      List.getD_eq_default _ _ (by omega)]

theorem getCell_setCell_same {α : Type} [Inhabited α] {m : List (List α)}
    {rows cols : Nat} (hs : Shape m rows cols) {i j : Nat}
    (hi : i < rows) (hj : j < cols) (v : α) :
    getCell (setCell m i j v) i j = v := by
  obtain ⟨hlen, hrows⟩ := hs
  have him : i < m.length := by omega
  have hrl : (m.getD i []).length = cols := by
    rw [List.getD_eq_getElem _ _ him]
    exact hrows _ (List.getElem_mem him)
  unfold getCell setCell
  rw [getD_set_row _ him]
  rw [List.getD_eq_getElem _ _ (by rw [List.length_set]; omega)]
  rw [List.getElem_set, if_pos rfl]

theorem getCell_setCell_other {α : Type} [Inhabited α] {m : List (List α)}
    {i j i' j' : Nat} (hne : (i', j') ≠ (i, j)) (v : α) :
    getCell (setCell m i j v) i' j' = getCell m i' j' := by
  unfold getCell setCell
  by_cases hii : i' = i
  · subst hii
    have hjj : j' ≠ j := by simpa using hne
    by_cases him : i' < m.length
    · rw [getD_set_row _ him]
      by_cases hjm : j' < (m.getD i' []).length
      · rw [List.getD_eq_getElem _ _ (by rw [List.length_set]; omega)]
        rw [List.getElem_set, if_neg (fun h => hjj h.symm)]
        rw [List.getD_eq_getElem _ _ hjm]
      · rw [List.getD_eq_default _ _ (by rw [List.length_set]; omega),
          List.getD_eq_default _ _ (by omega)]
    · rw [List.set_eq_of_length_le (by omega)]
  · rw [getD_set_row_other _ (fun h => hii h.symm)]

theorem exists_row_of_getCell {α : Type} [Inhabited α] {m : List (List α)}
    {rows cols : Nat} (hs : Shape m rows cols) {i j : Nat}
    (hi : i < rows) (hj : j < cols) :
    ∃ row ∈ m, getCell m i j ∈ row := by
  obtain ⟨hlen, hrows⟩ := hs
  have him : i < m.length := by omega
  have hrl : (m.getD i []).length = cols := by
    rw [List.getD_eq_getElem _ _ him]
    exact hrows _ (List.getElem_mem him)
  refine ⟨m.getD i [], ?_, ?_⟩
  · rw [List.getD_eq_getElem _ _ him]
    exact List.getElem_mem him
  · unfold getCell
    rw [List.getD_eq_getElem (m.getD i []) _ (by omega)]
    exact List.getElem_mem _

theorem idxOf?_append_self {α : Type} [DecidableEq α] {l : List α} {c : α}
    (h : c ∉ l) : idxOf? (l ++ [c]) c = some l.length := by
  induction l with
  | nil => simp [idxOf?]
  | cons x xs ih =>
    have hx : x ≠ c := fun hh => h (hh ▸ List.mem_cons_self x xs)
    have hxs : c ∉ xs := fun hh => h (List.mem_cons_of_mem x hh)
    simp only [List.cons_append, idxOf?, if_neg hx, List.append_eq]
    rw [ih hxs]
    rfl

/-- Evaluation of `set_stitch` in the in-bounds, color-only case. -/
theorem set_stitch_eval_color (g : KnittingChart) (row col : Int) (rgb : Color)
    (hb : 0 ≤ row ∧ row < (g.rows : Int) ∧ 0 ≤ col ∧ col < (g.cols : Int)) :
    set_stitch g row col none (some rgb) =
      set_stitch_color_phase g row.toNat col.toNat
        (getCell g.color_indices row.toNat col.toNat) rgb := by
  unfold set_stitch
  rw [if_neg (not_not_intro hb)]

/-- Evaluation of `add_color` when the color is absent. -/
theorem add_color_new (p : KnittingColorPalette) (c : Color)
    (h : idxOf? p.assigned_colors c = none) :
    (add_color p c).1.num_colors = p.num_colors + 1 ∧
    (add_color p c).2 = (p.num_colors : Int) ∧
    (add_color p c).1.assigned_colors = p.assigned_colors ++ [c] := by
  unfold add_color
  rw [h]
  exact ⟨rfl, rfl, rfl⟩

/-! ## Claim C10: stitch name/index round trip -/

/-- C10 — stitch name/index round trip: every recognized stitch name survives
`stitch_to_index`/`index_to_stitch` round-tripping; every index in `[0, 9)`
survives the reverse round trip; unrecognized names map to `-1`; indices
outside `[0, 9)` map to `"Unknown"`. -/
theorem stitch_index_roundtrip :
    (∀ s ∈ STITCH_ORDER, index_to_stitch (stitch_to_index s) = s) ∧
    (∀ i : Int, 0 ≤ i → i < 9 → stitch_to_index (index_to_stitch i) = i) ∧
    (∀ s : String, s ∉ STITCH_ORDER → stitch_to_index s = -1) ∧
    (∀ i : Int, ¬(0 ≤ i ∧ i < 9) → index_to_stitch i = "Unknown") := by
  refine ⟨by decide, ?_, ?_, ?_⟩
  · intro i h1 h2
    interval_cases i <;> decide
  · intro s hs
    unfold stitch_to_index
    rw [(idxOf?_eq_none_iff _ _).2 hs]
  · intro i hi
    unfold index_to_stitch
    rw [if_neg (by simpa [STITCH_ORDER] using hi)]

/-- Witness for C10 at concrete inputs. -/
theorem stitch_index_roundtrip_witness :
    index_to_stitch (stitch_to_index "K2tog") = "K2tog" ∧
    stitch_to_index (index_to_stitch 3) = 3 ∧
    stitch_to_index "Z" = -1 ∧
    index_to_stitch (-2) = "Unknown" :=
  ⟨stitch_index_roundtrip.1 "K2tog" (by decide),
   stitch_index_roundtrip.2.1 3 (by decide) (by decide),
   stitch_index_roundtrip.2.2.1 "Z" (by decide),
   stitch_index_roundtrip.2.2.2 (-2) (by decide)⟩

/-! ## Claim C3: range-restricted queries (code bug) -/

/-- C3 — at the failing input (2×2 chart, `row_range=(1,2)`,
`col_range=(0,2)`), `get_symbolic_pattern`/`get_text_pattern` return a
full-size 2×2 grid whose first row is the untouched `'?'`/`'Unknown'` filler,
not the 1×2 sub-rectangle the spec describes (and which the in-repo caller
`display_chart` indexes the result as). -/
theorem range_query_full_size_bug :
    ((chartInit [[0, 1], [3, 5]] ChartColors.noColors).map fun g =>
        get_symbolic_pattern g (some (0, 2)) (some (1, 2))) =
      .ok [["?", "?"], ["/", "X"]] ∧
    ((chartInit [[0, 1], [3, 5]] ChartColors.noColors).map fun g =>
        get_text_pattern g (some (0, 2)) (some (1, 2))) =
      .ok [["Unknown", "Unknown"], ["K2tog", "C4F"]] := by
  constructor <;> rfl

/-! ## Claim C6: append-existing no-op -/

/-- C6 — appending a color already present in the palette returns the index
at which it is stored, leaves the palette (colors, names, tags, count)
unchanged, and a repeated call returns the same index. -/
theorem add_color_existing (p : KnittingColorPalette) (c : Color)
    (h : c ∈ p.assigned_colors) :
    (add_color p c).1 = p ∧
    0 ≤ (add_color p c).2 ∧
    (add_color p c).2 < (p.assigned_colors.length : Int) ∧
    p.assigned_colors.getD (add_color p c).2.toNat default = c ∧
    add_color (add_color p c).1 c = add_color p c := by
  obtain ⟨i, hi⟩ := idxOf?_isSome_of_mem h
  have hlt := idxOf?_lt_length hi
  have hget := idxOf?_getElem hi hlt
  unfold add_color
  rw [hi]
  refine ⟨rfl, by simp, by simpa using hlt, ?_, by rw [hi]⟩
  have htn : ((i : Int)).toNat = i := rfl
  rw [htn, List.getD_eq_getElem _ _ hlt]
  exact hget

/-- Witness for C6: gray is already in the default palette. -/
theorem add_color_existing_witness :
    (add_color (paletteInit [(128, 128, 128)]) (128, 128, 128)).1 =
      paletteInit [(128, 128, 128)] ∧
    0 ≤ (add_color (paletteInit [(128, 128, 128)]) (128, 128, 128)).2 ∧
    (add_color (paletteInit [(128, 128, 128)]) (128, 128, 128)).2 <
      ((paletteInit [(128, 128, 128)]).assigned_colors.length : Int) ∧
    (paletteInit [(128, 128, 128)]).assigned_colors.getD
      (add_color (paletteInit [(128, 128, 128)]) (128, 128, 128)).2.toNat default =
      (128, 128, 128) ∧
    add_color (add_color (paletteInit [(128, 128, 128)]) (128, 128, 128)).1
        (128, 128, 128) =
      add_color (paletteInit [(128, 128, 128)]) (128, 128, 128) :=
  add_color_existing (paletteInit [(128, 128, 128)]) (128, 128, 128) (by decide)

/-! ## Claim C7: setting a new color grows the palette by exactly one -/

/-- C7 counterexample — on the 1×1 default-gray chart, `(255,0,0)` is absent
and cell `(0,0)` is in bounds, yet `set_stitch(0,0, color_rgb=(255,0,0))`
leaves `palette.count` at 1 (the orphaned gray is compacted away), not 2. -/
theorem set_stitch_growth_cex :
    ((chartInit [[0]] ChartColors.noColors).map fun g =>
        (decide ((255, 0, 0) ∈ g.color_palette.assigned_colors),
         g.color_palette.num_colors,
         (set_stitch g 0 0 none (some (255, 0, 0))).1.color_palette.num_colors)) =
      .ok (false, 1, 1) := by
  rfl

/-- C7 amended — on a well-formed chart where `(255,0,0)` is absent from the
palette and the written cell's current color index is shared with some other
cell (so no compaction is triggered), `set_stitch(row, col,
color_rgb=(255,0,0))` increases `palette.count` by exactly one, and a second
identical call leaves it there. Without the sharing hypothesis the overwritten
color may become orphaned; compaction then removes it and the count can stay
unchanged, as in the counterexample. -/
theorem set_stitch_new_color_growth (g : KnittingChart) (row col : Int)
    (hwf : ChartWF g)
    (hb : 0 ≤ row ∧ row < (g.rows : Int) ∧ 0 ≤ col ∧ col < (g.cols : Int))
    (habs : (255, 0, 0) ∉ g.color_palette.assigned_colors)
    (i j : Nat) (hij : (i, j) ≠ (row.toNat, col.toNat))
    (hi : i < g.rows) (hj : j < g.cols)
    (hshare : getCell g.color_indices i j = getCell g.color_indices row.toNat col.toNat) :
    (set_stitch g row col none (some (255, 0, 0))).1.color_palette.num_colors =
      g.color_palette.num_colors + 1 ∧
    (set_stitch (set_stitch g row col none (some (255, 0, 0))).1 row col none
        (some (255, 0, 0))).1.color_palette.num_colors =
      g.color_palette.num_colors + 1 := by
  obtain ⟨hsp, hsi, hpal, hvalid⟩ := hwf
  have hrow : row.toNat < g.rows := by omega
  have hcol : col.toNat < g.cols := by omega
  have hnone : idxOf? g.color_palette.assigned_colors (255, 0, 0) = none :=
    (idxOf?_eq_none_iff _ _).2 habs
  have hadd := add_color_new g.color_palette (255, 0, 0) hnone
  have hany : ((setCell g.color_indices row.toNat col.toNat
        (add_color g.color_palette (255, 0, 0)).2).any
      fun rowl => rowl.any fun v =>
        v = getCell g.color_indices row.toNat col.toNat) = true := by
    have hsh := setCell_shape hsi row.toNat col.toNat
      (add_color g.color_palette (255, 0, 0)).2
    obtain ⟨rowl, hmem, hvmem⟩ := exists_row_of_getCell hsh hi hj
    rw [getCell_setCell_other hij, hshare] at hvmem
    rw [List.any_eq_true]
    refine ⟨rowl, hmem, ?_⟩
    rw [List.any_eq_true]
    exact ⟨getCell g.color_indices row.toNat col.toNat, hvmem, by simp⟩
  have hres : (set_stitch g row col none (some (255, 0, 0))).1 =
      { g with color_palette := (add_color g.color_palette (255, 0, 0)).1,
               color_indices :=
                 setCell g.color_indices row.toNat col.toNat
                   (add_color g.color_palette (255, 0, 0)).2 } := by
    rw [set_stitch_eval_color g row col _ hb]
    unfold set_stitch_color_phase
    simp only [get_index_by_color, hnone]
    rw [if_neg fun hcontr => hcontr.2 hany]
  rw [hres]
  constructor
  · exact hadd.1
  · have hfound : idxOf? ((add_color g.color_palette (255, 0, 0)).1.assigned_colors)
        (255, 0, 0) = some g.color_palette.assigned_colors.length := by
      rw [hadd.2.2]
      exact idxOf?_append_self habs
    have horig2 : getCell (setCell g.color_indices row.toNat col.toNat
          (add_color g.color_palette (255, 0, 0)).2) row.toNat col.toNat =
        (g.color_palette.assigned_colors.length : Int) := by
      rw [getCell_setCell_same hsi hrow hcol, hadd.2.1, hpal.1]
    rw [set_stitch_eval_color
      { g with color_palette := (add_color g.color_palette (255, 0, 0)).1,
               color_indices :=
                 setCell g.color_indices row.toNat col.toNat
                   (add_color g.color_palette (255, 0, 0)).2 } row col _ hb]
    unfold set_stitch_color_phase
    simp only [get_index_by_color, hfound, horig2]
    rw [if_neg fun hcontr => hcontr.1 rfl]
    exact hadd.1

/-- 1×2 default-gray chart used to witness C7's amended theorem (the chart
`chartInit [[0,0]] .noColors` produces). -/
def c7chart : KnittingChart :=
  ⟨[[0, 0]], 1, 2, [[0, 0]], paletteInit [(128, 128, 128)]⟩

/-- Witness for C7's amended theorem on a 1×2 gray chart: the other cell
shares the overwritten color index, so the count goes 1 → 2 and stays 2. -/
theorem set_stitch_new_color_growth_witness :
    (set_stitch c7chart 0 0 none (some (255, 0, 0))).1.color_palette.num_colors =
      c7chart.color_palette.num_colors + 1 ∧
    (set_stitch (set_stitch c7chart 0 0 none (some (255, 0, 0))).1 0 0 none
        (some (255, 0, 0))).1.color_palette.num_colors =
      c7chart.color_palette.num_colors + 1 :=
  set_stitch_new_color_growth c7chart 0 0 (by decide) (by decide) (by decide)
    0 1 (by decide) (by decide) (by decide) (by decide)

/-! ## Claim C4: rectangular-write error atomicity -/

/-- C4 — `__setitem__` failure atomicity: a non-chart source fails with the
`TypeError`-kind error and a chart source of mismatched sub-shape fails with
the `ShapeError`-kind (`ValueError`) error; in both cases the returned state
is exactly the unchanged target chart (pattern, color_indices and palette
untouched), because both raises precede every mutation in the source. -/
theorem setitem_error_atomic (g src : KnittingChart) (key : (Nat × Nat) × (Nat × Nat))
    (hmis : patShape src.pattern ≠
      (sliceLen key.1 g.pattern.length, sliceLen key.2 (g.pattern.headD []).length)) :
    setitem g key (.chart src) = (g, some .valueError) ∧
    setitem g key .nonChart = (g, some .typeError) := by
  constructor
  · simp only [setitem]
    rw [if_pos hmis]
  · rfl

/-- 2×2 chart and 1×1 source used to witness C4. -/
def c4target : KnittingChart :=
  ⟨[[0, 1], [1, 0]], 2, 2, [[0, 0], [0, 0]], paletteInit [(128, 128, 128)]⟩

def c4src : KnittingChart :=
  ⟨[[5]], 1, 1, [[0]], paletteInit [(0, 0, 0)]⟩

/-- Witness for C4: writing a 1×1 chart into a 2×2 region fails with the
shape error and leaves the target untouched; a non-chart value fails with the
type error likewise. -/
theorem setitem_error_atomic_witness :
    setitem c4target ((0, 2), (0, 2)) (.chart c4src) = (c4target, some .valueError) ∧
    setitem c4target ((0, 2), (0, 2)) .nonChart = (c4target, some .typeError) :=
  setitem_error_atomic c4target c4src ((0, 2), (0, 2)) (by decide)

/-! ## Construction-time naming: characterization and uniqueness -/

theorem string_ext {s t : String} (h : s.data = t.data) : s = t := by
  cases s; cases t; exact congrArg String.mk h

/-- The short tag assigned to base `b` with `k` earlier same-base occurrences. -/
def mkTag (b k : Nat) : String :=
  if k = 0 then refTag b else refTag b ++ natStr (k + 1)

theorem assignNames_lengths (colors : List Color) (counts : List (String × Nat)) :
    (assignNames colors counts).1.length = colors.length ∧
    (assignNames colors counts).2.length = colors.length := by
  induction colors generalizing counts with
  | nil => simp [assignNames]
  | cons c rest ih =>
    simp only [assignNames]
    split <;> simpa using ih _

/-- The twelve reference full names are pairwise distinct. -/
theorem refName_inj : ∀ a < 12, ∀ b < 12, a ≠ b → refName a ≠ refName b := by
  decide

/-- The twelve reference short tags are pairwise distinct. -/
theorem refTag_inj : ∀ a < 12, ∀ b < 12, a ≠ b → refTag a ≠ refTag b := by
  decide

theorem refTag_len : ∀ a < 12, (refTag a).data.length = 1 ∨ (refTag a).data.length = 2 := by
  decide

theorem refTag_snd_not_digit :
    ∀ a < 12, (refTag a).data.length = 2 → ((refTag a).data.getD 1 ' ').isDigit = false := by
  decide

/-- Characterization of the tags produced by the `__init__` naming loop: the
`i`-th tag is determined by the `i`-th nearest-reference base and the number
of earlier colors (including an abstract history) with the same base. -/
theorem assignNames_tags_getD (colors : List Color) (hist : List Nat)
    (counts : List (String × Nat))
    (hinv : ∀ r : Nat, r < 12 →
      countsGet counts (refName r) =
        if hist.count r = 0 then none else some (hist.count r)) :
    ∀ i < colors.length,
      (assignNames colors counts).2.getD i "" =
        mkTag ((colors.map nearestRefIdx).getD i 0)
          ((hist ++ (colors.map nearestRefIdx).take i).count
            ((colors.map nearestRefIdx).getD i 0)) := by
  induction colors generalizing hist counts with
  | nil => intro i hi; simp at hi
  | cons c rest ih =>
    intro i hi
    have hr12 : nearestRefIdx c < 12 := nearestRefIdx_lt c
    have hcg := hinv (nearestRefIdx c) hr12
    match i with
    | 0 =>
        simp only [List.map_cons, List.take_zero, List.append_nil, List.getD_cons_zero]
        by_cases h0 : hist.count (nearestRefIdx c) = 0
        · rw [if_pos h0] at hcg
          simp only [assignNames, hcg]
          rw [mkTag, if_pos h0]
          rfl
        · rw [if_neg h0] at hcg
          simp only [assignNames, hcg]
          rw [mkTag, if_neg h0]
          rfl
    | i + 1 =>
        have hilen : i < rest.length := by simpa using hi
        -- the new history after processing `c`
        have hinv' : ∀ r : Nat, r < 12 →
            countsGet (countsSet counts (refName (nearestRefIdx c))
                (hist.count (nearestRefIdx c) + 1)) (refName r) =
              if (hist ++ [nearestRefIdx c]).count r = 0 then none
              else some ((hist ++ [nearestRefIdx c]).count r) := by
          intro r hr
          by_cases hrr : r = nearestRefIdx c
          · subst hrr
            rw [countsGet_set_same]
            have hcnt : (hist ++ [nearestRefIdx c]).count (nearestRefIdx c) =
                hist.count (nearestRefIdx c) + 1 := by
              simp [List.count_append]
            rw [hcnt, if_neg (by omega)]
          · rw [countsGet_set_other _ _ _ _ (refName_inj r hr _ hr12 hrr)]
            have : (hist ++ [nearestRefIdx c]).count r = hist.count r := by
              simp [List.count_append, List.count_singleton', hrr]
            rw [this]
            exact hinv r hr
        have htail :
            (assignNames (c :: rest) counts).2.getD (i + 1) "" =
              (assignNames rest (countsSet counts (refName (nearestRefIdx c))
                (hist.count (nearestRefIdx c) + 1))).2.getD i "" := by
          by_cases h0 : hist.count (nearestRefIdx c) = 0
          · rw [if_pos h0] at hcg
            simp only [assignNames, hcg]
            have h1 : hist.count (nearestRefIdx c) + 1 = 1 := by omega
            rw [h1]
            rfl
          · rw [if_neg h0] at hcg
            simp only [assignNames, hcg]
            have h1 : hist.count (nearestRefIdx c) - 1 + 1 + 1 =
                hist.count (nearestRefIdx c) + 1 := by omega
            rfl
        rw [htail, ih (hist ++ [nearestRefIdx c]) _ hinv' i hilen]
        simp only [List.map_cons, List.getD_cons_succ]
        have htake : (nearestRefIdx c :: rest.map nearestRefIdx).take (i + 1) =
            nearestRefIdx c :: (rest.map nearestRefIdx).take i := by
          rfl
        rw [htake, List.append_assoc]
        rfl

/-- Specialization to `paletteInit`. -/
theorem paletteInit_tags_getD (colors : List Color) (i : Nat) (hi : i < colors.length) :
    (paletteInit colors).short_tags.getD i "" =
      mkTag ((colors.map nearestRefIdx).getD i 0)
        (((colors.map nearestRefIdx).take i).count ((colors.map nearestRefIdx).getD i 0)) := by
  have := assignNames_tags_getD colors [] [] (by intro r _; simp [countsGet]) i hi
  simpa [paletteInit] using this

theorem paletteInit_tags_length (colors : List Color) :
    (paletteInit colors).short_tags.length = colors.length :=
  (assignNames_lengths colors []).2

theorem paletteInit_names_length (colors : List Color) :
    (paletteInit colors).full_names.length = colors.length :=
  (assignNames_lengths colors []).1

/-- Key string fact: a 1–2 character non-digit-terminated prefix followed by
an optional digit string determines both components. -/
theorem tag_digit_append_inj {t t' s s' : List Char}
    (ht1 : t.length = 1 ∨ t.length = 2) (ht2 : t'.length = 1 ∨ t'.length = 2)
    (hd : t.length = 2 → (t.getD 1 ' ').isDigit = false)
    (hd' : t'.length = 2 → (t'.getD 1 ' ').isDigit = false)
    (hs : s = [] ∨ ∀ c ∈ s, c.isDigit = true)
    (hs' : s' = [] ∨ ∀ c ∈ s', c.isDigit = true)
    (h : t ++ s = t' ++ s') : t = t' ∧ s = s' := by
  rcases Nat.lt_trichotomy t.length t'.length with hlt | heq | hgt
  · exfalso
    obtain ⟨x, rfl⟩ := List.length_eq_one.1 (by omega : t.length = 1)
    obtain ⟨y, z, rfl⟩ := List.length_eq_two.1 (by omega : t'.length = 2)
    simp only [List.cons_append, List.nil_append, List.cons.injEq] at h
    obtain ⟨rfl, h2⟩ := h
    have hz : z ∈ s := by rw [h2]; exact List.mem_cons_self _ _
    rcases hs with rfl | hdig
    · simp at h2
    · have := hdig z hz
      have := hd' rfl
      simp only [List.getD_cons_succ, List.getD_cons_zero] at this
      rw [this] at *
      simp_all
  · obtain ⟨h1, h2⟩ := List.append_inj h heq
    exact ⟨h1, h2⟩
  · exfalso
    obtain ⟨x, rfl⟩ := List.length_eq_one.1 (by omega : t'.length = 1)
    obtain ⟨y, z, rfl⟩ := List.length_eq_two.1 (by omega : t.length = 2)
    simp only [List.cons_append, List.nil_append, List.cons.injEq] at h
    obtain ⟨rfl, h2⟩ := h
    have hz : z ∈ s' := by rw [← h2]; exact List.mem_cons_self _ _
    rcases hs' with rfl | hdig
    · simp at h2
    · have := hdig z hz
      have := hd rfl
      simp only [List.getD_cons_succ, List.getD_cons_zero] at this
      rw [this] at *
      simp_all

/-- `mkTag` is injective for reference-color bases. -/
theorem mkTag_inj {b b' k k' : Nat} (hb : b < 12) (hb' : b' < 12)
    (h : mkTag b k = mkTag b' k') : b = b' ∧ k = k' := by
  have hdata := congrArg String.data h
  have hsplit : ∀ (m : Nat), (mkTag b m).data =
      (refTag b).data ++ (if m = 0 then [] else natChars (m + 1)) := by
    intro m
    by_cases hm : m = 0
    · simp [mkTag, hm]
    · rw [mkTag, if_neg hm, if_neg hm, String.data_append]
      rfl
  have hsplit' : ∀ (m : Nat), (mkTag b' m).data =
      (refTag b').data ++ (if m = 0 then [] else natChars (m + 1)) := by
    intro m
    by_cases hm : m = 0
    · simp [mkTag, hm]
    · rw [mkTag, if_neg hm, if_neg hm, String.data_append]
      rfl
  rw [hsplit k, hsplit' k'] at hdata
  have hsfact : ∀ m : Nat,
      (if m = 0 then ([] : List Char) else natChars (m + 1)) = [] ∨
        ∀ c ∈ (if m = 0 then ([] : List Char) else natChars (m + 1)),
          c.isDigit = true := by
    intro m
    by_cases hm : m = 0
    · rw [if_pos hm]; exact Or.inl rfl
    · rw [if_neg hm]; exact Or.inr (natChars_isDigit _)
  have key := tag_digit_append_inj (refTag_len b hb) (refTag_len b' hb')
    (refTag_snd_not_digit b hb) (refTag_snd_not_digit b' hb')
    (hsfact k) (hsfact k') hdata
  have hbb : b = b' := by
    by_contra hne
    exact refTag_inj b hb b' hb' hne (string_ext key.1)
  refine ⟨hbb, ?_⟩
  have h2 := key.2
  by_cases hk : k = 0 <;> by_cases hk' : k' = 0
  · omega
  · rw [if_pos hk, if_neg hk'] at h2
    exact absurd h2.symm (natChars_ne_nil _)
  · rw [if_neg hk, if_pos hk'] at h2
    exact absurd h2 (natChars_ne_nil _)
  · rw [if_neg hk, if_neg hk'] at h2
    have := natChars_injective h2
    omega

/-! ## Claim C8: naming uniqueness at construction -/

/-- C8 — for pairwise-distinct construction colors, the short tags assigned
by `KnittingColorPalette.__init__` are pairwise distinct. (The proof never
uses the distinctness of the colors: the per-base counters alone guarantee
distinct tags.) -/
theorem paletteInit_tags_pairwise_ne (colors : List Color)
    (_hnd : colors.Pairwise (· ≠ ·)) :
    (paletteInit colors).short_tags.Pairwise (· ≠ ·) := by
  rw [List.pairwise_iff_getElem]
  intro i j hi hj hij
  have hlen := paletteInit_tags_length colors
  have hic : i < colors.length := by omega
  have hjc : j < colors.length := by omega
  have hgi : (paletteInit colors).short_tags[i] =
      (paletteInit colors).short_tags.getD i "" := by
    rw [List.getD_eq_getElem _ _ hi]
  have hgj : (paletteInit colors).short_tags[j] =
      (paletteInit colors).short_tags.getD j "" := by
    rw [List.getD_eq_getElem _ _ hj]
  rw [hgi, hgj, paletteInit_tags_getD colors i hic, paletteInit_tags_getD colors j hjc]
  set bases := colors.map nearestRefIdx with hbases
  have hblen : bases.length = colors.length := by simp [hbases]
  have hbi12 : bases.getD i 0 < 12 := by
    rw [List.getD_eq_getElem _ _ (by omega)]
    simp only [hbases, List.getElem_map]
    exact nearestRefIdx_lt _
  have hbj12 : bases.getD j 0 < 12 := by
    rw [List.getD_eq_getElem _ _ (by omega)]
    simp only [hbases, List.getElem_map]
    exact nearestRefIdx_lt _
  intro heq
  obtain ⟨hbb, hkk⟩ := mkTag_inj hbi12 hbj12 heq
  -- same base: the count strictly increases from position i to position j
  have hmono : (bases.take i).count (bases.getD i 0) <
      (bases.take j).count (bases.getD i 0) := by
    have hstep : bases.take (i + 1) = bases.take i ++ [bases.getD i 0] := by
      rw [List.take_succ, List.getElem?_eq_getElem (by omega : i < bases.length)]
      rw [List.getD_eq_getElem _ _ (by omega)]
      rfl
    have hpref : bases.take (i + 1) <+: bases.take j := by
      have : bases.take (i + 1) = (bases.take j).take (i + 1) := by
        rw [List.take_take, min_eq_left (by omega)]
      rw [this]
      exact List.take_prefix _ _
    have hle := hpref.sublist.count_le (bases.getD i 0)
    rw [hstep, List.count_append] at hle
    have hself : [bases.getD i 0].count (bases.getD i 0) = 1 := by simp
    omega
  rw [hbb] at hmono hkk
  omega

/-- Witness for C8 on three distinct near-white colors (tags `W`, `W2`, `W3`). -/
theorem paletteInit_tags_pairwise_ne_witness :
    (paletteInit [(255, 255, 255), (250, 250, 250), (240, 240, 241)]).short_tags.Pairwise
      (· ≠ ·) :=
  paletteInit_tags_pairwise_ne _ (by decide)

/-! ## Palette optimization: compactness, idempotence, cell preservation -/

theorem idxOf?_getElem_self {α : Type} [DecidableEq α] {l : List α} (hnd : l.Nodup)
    {p : Nat} (hp : p < l.length) : idxOf? l l[p] = some p := by
  induction l generalizing p with
  | nil => simp at hp
  | cons x xs ih =>
    match p with
    | 0 => simp [idxOf?]
    | p + 1 =>
        have hp' : p < xs.length := by simpa using hp
        have hx : x ≠ xs[p] := by
          intro hh
          exact (List.nodup_cons.1 hnd).1 (hh ▸ List.getElem_mem hp')
        simp only [List.getElem_cons_succ, idxOf?]
        rw [if_neg hx, ih (List.nodup_cons.1 hnd).2 hp']
        rfl

theorem mem_uniqueSortedInt {l : List Int} {v : Int} :
    v ∈ uniqueSortedInt l ↔ v ∈ l := by
  rw [uniqueSortedInt, (List.perm_insertionSort _ _).mem_iff, List.mem_dedup]

theorem nodup_uniqueSortedInt (l : List Int) : (uniqueSortedInt l).Nodup :=
  (List.perm_insertionSort _ _).nodup_iff.2 (List.nodup_dedup l)

theorem mem_flatten_shape {α : Type} [Inhabited α] {m : List (List α)} {r c : Nat}
    (hs : Shape m r c) {v : α} :
    v ∈ m.flatten ↔ ∃ i < r, ∃ j < c, getCell m i j = v := by
  constructor
  · intro hv
    obtain ⟨row, hrow, hvr⟩ := List.mem_flatten.1 hv
    obtain ⟨i, hi, hieq⟩ := List.getElem_of_mem hrow
    subst hieq
    obtain ⟨j, hj, hjeq⟩ := List.getElem_of_mem hvr
    have hir : i < r := by rw [← hs.1]; exact hi
    have hrl : m[i].length = c := hs.2 _ hrow
    refine ⟨i, hir, j, by omega, ?_⟩
    rw [getCell_eq_getElem hi hj]
    exact hjeq
  · rintro ⟨i, hi, j, hj, rfl⟩
    obtain ⟨row, hrow, hvr⟩ := exists_row_of_getCell hs hi hj
    exact List.mem_flatten.2 ⟨row, hrow, hvr⟩

/-- `paletteInit` always produces parallel arrays of the input's length. -/
theorem paletteInit_WF (colors : List Color) : PaletteWF (paletteInit colors) :=
  ⟨rfl, paletteInit_names_length colors, paletteInit_tags_length colors⟩

/-- When the number of used indices matches the palette size,
`optimize_color_palette` is a no-op returning `False`. -/
theorem optimize_noop (g : KnittingChart)
    (h : (uniqueSortedInt g.color_indices.flatten).length = g.color_palette.num_colors) :
    optimize_color_palette g = (g, false) := by
  unfold optimize_color_palette
  rw [if_pos h]

/-- Explicit form of the rebuilt chart when optimization fires. -/
theorem optimize_rebuild (g : KnittingChart)
    (h : ¬(uniqueSortedInt g.color_indices.flatten).length = g.color_palette.num_colors) :
    optimize_color_palette g =
      ({ g with
          color_indices := mkGrid g.rows g.cols fun i j =>
            (((idxOf? (uniqueSortedInt g.color_indices.flatten)
                (getCell g.color_indices i j)).getD 0 : Nat) : Int),
          color_palette := paletteInit ((uniqueSortedInt g.color_indices.flatten).map
            fun idx => (get_color_by_index g.color_palette idx).getD (0, 0, 0)) },
        true) := by
  unfold optimize_color_palette
  rw [if_neg h]

/-- Values stored in the remapped index grid are exactly the positions into
the used-index list. -/
theorem optimize_newIdx_mem (g : KnittingChart)
    (hsi : Shape g.color_indices g.rows g.cols) :
    ∀ v : Int,
      v ∈ (mkGrid g.rows g.cols fun i j =>
          (((idxOf? (uniqueSortedInt g.color_indices.flatten)
              (getCell g.color_indices i j)).getD 0 : Nat) : Int)).flatten ↔
        ∃ p < (uniqueSortedInt g.color_indices.flatten).length, ((p : Nat) : Int) = v := by
  have hrows : g.color_indices.length = g.rows := hsi.1
  have hshape2 := shape_mkGrid g.rows g.cols fun i j =>
    (((idxOf? (uniqueSortedInt g.color_indices.flatten)
        (getCell g.color_indices i j)).getD 0 : Nat) : Int)
  intro v
  rw [mem_flatten_shape hshape2]
  constructor
  · rintro ⟨i, hi, j, hj, hc⟩
    rw [getCell_mkGrid _ hi hj] at hc
    have hcell : getCell g.color_indices i j ∈ g.color_indices.flatten := by
      rw [mem_flatten_shape ⟨hrows, hsi.2⟩]
      exact ⟨i, by omega, j, hj, rfl⟩
    have hcellu : getCell g.color_indices i j ∈
        uniqueSortedInt g.color_indices.flatten :=
      mem_uniqueSortedInt.2 hcell
    obtain ⟨p, hp⟩ := idxOf?_isSome_of_mem hcellu
    refine ⟨p, idxOf?_lt_length hp, ?_⟩
    rw [← hc, hp]
    rfl
  · rintro ⟨p, hp, rfl⟩
    have hnd := nodup_uniqueSortedInt g.color_indices.flatten
    have hup : (uniqueSortedInt g.color_indices.flatten)[p] ∈
        g.color_indices.flatten :=
      mem_uniqueSortedInt.1 (List.getElem_mem hp)
    rw [mem_flatten_shape ⟨hrows, hsi.2⟩] at hup
    obtain ⟨i, hi, j, hj, hcell⟩ := hup
    refine ⟨i, hi, j, hj, ?_⟩
    rw [getCell_mkGrid _ hi hj, hcell, idxOf?_getElem_self hnd hp]
    rfl

/-- After a rebuilding optimization the chart is compact: the set of used
indices is exactly `{0, …, used.length - 1}`. -/
theorem optimize_compact (g : KnittingChart) (hwf : ChartWF g) :
    (uniqueSortedInt (optimize_color_palette g).1.color_indices.flatten).length =
      (optimize_color_palette g).1.color_palette.num_colors := by
  obtain ⟨hsp, hsi, hpal, hvalid⟩ := hwf
  by_cases hlen : (uniqueSortedInt g.color_indices.flatten).length =
      g.color_palette.num_colors
  · rw [optimize_noop g hlen]
    exact hlen
  · rw [optimize_rebuild g hlen]
    have hmem2 := optimize_newIdx_mem g hsi
    -- hence the new used list is a permutation of the canonical range
    have hperm : List.Perm
        (uniqueSortedInt (mkGrid g.rows g.cols fun i j =>
            (((idxOf? (uniqueSortedInt g.color_indices.flatten)
                (getCell g.color_indices i j)).getD 0 : Nat) : Int)).flatten)
        ((List.range (uniqueSortedInt g.color_indices.flatten).length).map
          fun p => ((p : Nat) : Int)) := by
      apply List.perm_of_nodup_nodup_toFinset_eq
      · exact nodup_uniqueSortedInt _
      · refine List.Nodup.map ?_ (List.nodup_range _)
        intro a b hab
        have hab' : ((a : Nat) : Int) = ((b : Nat) : Int) := by simpa using hab
        exact_mod_cast hab'
      · apply Finset.ext
        intro v
        simp only [List.mem_toFinset, List.mem_map, List.mem_range]
        rw [mem_uniqueSortedInt, hmem2 v]
    have hlen2 := hperm.length_eq
    simp only [List.length_map, List.length_range] at hlen2
    rw [hlen2]
    simp [paletteInit]

/-- 1×2 chart whose palette has an unused third color, so the first
`optimize_color_palette` call actually rebuilds. -/
def c5chart : KnittingChart :=
  ⟨[[0, 0]], 1, 2, [[2, 0]], paletteInit [(1, 2, 3), (4, 5, 6), (9, 9, 9)]⟩

/-- `optimize_color_palette` preserves full well-formedness. -/
theorem optimize_WF (g : KnittingChart) (hwf : ChartWF g) :
    ChartWF (optimize_color_palette g).1 := by
  obtain ⟨hsp, hsi, hpal, hvalid⟩ := hwf
  by_cases hlen : (uniqueSortedInt g.color_indices.flatten).length =
      g.color_palette.num_colors
  · rw [optimize_noop g hlen]
    exact ⟨hsp, hsi, hpal, hvalid⟩
  · rw [optimize_rebuild g hlen]
    refine ⟨hsp, shape_mkGrid _ _ _, paletteInit_WF _, ?_⟩
    intro row hrow v hv
    have hvf : v ∈ (mkGrid g.rows g.cols fun i j =>
        (((idxOf? (uniqueSortedInt g.color_indices.flatten)
            (getCell g.color_indices i j)).getD 0 : Nat) : Int)).flatten :=
      List.mem_flatten.2 ⟨row, hrow, hv⟩
    obtain ⟨p, hp, rfl⟩ := (optimize_newIdx_mem g hsi v).1 hvf
    constructor
    · exact Int.natCast_nonneg p
    · have hnum : (paletteInit ((uniqueSortedInt g.color_indices.flatten).map
          fun idx => (get_color_by_index g.color_palette idx).getD (0, 0, 0))).num_colors =
          (uniqueSortedInt g.color_indices.flatten).length := by
        simp [paletteInit]
      rw [hnum]
      exact_mod_cast hp

/-- Cell-level color preservation: the remapped index looks up the same RGB
in the rebuilt palette as the old index did in the old palette. -/
theorem optimize_cell_lookup (g : KnittingChart) (hwf : ChartWF g)
    {i j : Nat} (hi : i < g.rows) (hj : j < g.cols) :
    (get_color_by_index (optimize_color_palette g).1.color_palette
        (getCell (optimize_color_palette g).1.color_indices i j)).getD (0, 0, 0) =
      (get_color_by_index g.color_palette (getCell g.color_indices i j)).getD
        (0, 0, 0) := by
  obtain ⟨hsp, hsi, hpal, hvalid⟩ := hwf
  by_cases hlen : (uniqueSortedInt g.color_indices.flatten).length =
      g.color_palette.num_colors
  · rw [optimize_noop g hlen]
  · rw [optimize_rebuild g hlen]
    have hcell : getCell g.color_indices i j ∈ g.color_indices.flatten := by
      rw [mem_flatten_shape hsi]
      exact ⟨i, hi, j, hj, rfl⟩
    have hcellu : getCell g.color_indices i j ∈
        uniqueSortedInt g.color_indices.flatten :=
      mem_uniqueSortedInt.2 hcell
    obtain ⟨p, hp⟩ := idxOf?_isSome_of_mem hcellu
    have hplt := idxOf?_lt_length hp
    have hup := idxOf?_getElem hp hplt
    show (get_color_by_index _ (getCell (mkGrid _ _ _) i j)).getD (0, 0, 0) = _
    rw [getCell_mkGrid _ hi hj, hp]
    have hmaplen : ((uniqueSortedInt g.color_indices.flatten).map
        fun idx => (get_color_by_index g.color_palette idx).getD (0, 0, 0)).length =
        (uniqueSortedInt g.color_indices.flatten).length := by
      simp
    rw [get_color_by_index, if_pos ?side]
    case side =>
      constructor
      · exact Int.natCast_nonneg p
      · show ((p : Nat) : Int) < ((paletteInit _).num_colors : Int)
        have : (paletteInit ((uniqueSortedInt g.color_indices.flatten).map
            fun idx => (get_color_by_index g.color_palette idx).getD (0, 0, 0))).num_colors =
            (uniqueSortedInt g.color_indices.flatten).length := by
          simp [paletteInit]
        rw [this]
        exact_mod_cast hplt
    show Option.getD (some (((paletteInit _).assigned_colors).getD
        ((((p : Nat) : Int)).toNat) default)) (0, 0, 0) = _
    have htn : ((((p : Nat) : Int)).toNat) = p := rfl
    rw [htn]
    have hassigned : (paletteInit ((uniqueSortedInt g.color_indices.flatten).map
        fun idx => (get_color_by_index g.color_palette idx).getD (0, 0, 0))).assigned_colors =
        (uniqueSortedInt g.color_indices.flatten).map
          fun idx => (get_color_by_index g.color_palette idx).getD (0, 0, 0) := rfl
    rw [hassigned, Option.getD_some]
    rw [List.getD_eq_getElem _ _ (by rw [hmaplen]; exact hplt)]
    rw [List.getElem_map]
    rw [hup]

/-! ## Claim C9: palette optimization preserves observable cells -/

/-- C9 — on a chart satisfying the index-validity invariant,
`optimize_color_palette` leaves the pattern array and the full-grid
`get_rgb_colors` image unchanged; only the palette numbering/naming changes. -/
theorem optimize_preserves_cells (g : KnittingChart) (hwf : ChartWF g) :
    (optimize_color_palette g).1.pattern = g.pattern ∧
    get_rgb_colors (optimize_color_palette g).1 none none =
      get_rgb_colors g none none := by
  constructor
  · by_cases hlen : (uniqueSortedInt g.color_indices.flatten).length =
        g.color_palette.num_colors
    · rw [optimize_noop g hlen]
    · rw [optimize_rebuild g hlen]
  · have hrows : (optimize_color_palette g).1.rows = g.rows := by
      by_cases hlen : (uniqueSortedInt g.color_indices.flatten).length =
          g.color_palette.num_colors
      · rw [optimize_noop g hlen]
      · rw [optimize_rebuild g hlen]
    have hcols : (optimize_color_palette g).1.cols = g.cols := by
      by_cases hlen : (uniqueSortedInt g.color_indices.flatten).length =
          g.color_palette.num_colors
      · rw [optimize_noop g hlen]
      · rw [optimize_rebuild g hlen]
    unfold get_rgb_colors mkGrid
    rw [hrows, hcols]
    apply List.map_congr_left
    intro i hi
    apply List.map_congr_left
    intro j hj
    rw [List.mem_range] at hi hj
    simp only [Option.getD_none]
    rw [if_pos ⟨Nat.zero_le i, hi, Nat.zero_le j, hj⟩,
      if_pos ⟨Nat.zero_le i, hi, Nat.zero_le j, hj⟩]
    exact optimize_cell_lookup g hwf hi hj

/-- Witness for C9 on the same rebuilding chart as C5. -/
theorem optimize_preserves_cells_witness :
    (optimize_color_palette c5chart).1.pattern = c5chart.pattern ∧
    get_rgb_colors (optimize_color_palette c5chart).1 none none =
      get_rgb_colors c5chart none none :=
  optimize_preserves_cells c5chart (by decide)

/-! ## Claim C5: optimization idempotence -/

/-- C5 — on a well-formed chart, a second immediate `optimize_color_palette`
call returns `False` and leaves the palette and `color_indices` exactly as the
first call left them (the returned chart is unchanged). -/
theorem optimize_idempotent (g : KnittingChart) (hwf : ChartWF g) :
    optimize_color_palette (optimize_color_palette g).1 =
      ((optimize_color_palette g).1, false) :=
  optimize_noop _ (optimize_compact g hwf)

/-- Witness for C5 on a 1×2 chart whose palette has an unused color. -/
theorem optimize_idempotent_witness :
    optimize_color_palette (optimize_color_palette c5chart).1 =
      ((optimize_color_palette c5chart).1, false) :=
  optimize_idempotent c5chart (by decide)

/-! ## Constructor well-formedness -/

/-- The chart `KnittingChart.__init__` builds from a full color array. -/
def canonChart (pattern : List (List Int)) (C : List (List Color)) : KnittingChart :=
  { pattern := pattern, rows := pattern.length,
    cols := (pattern.headD []).length,
    color_indices := C.map (List.map (lookupIdx (paletteInit (uniqueSorted C.flatten)))),
    color_palette := paletteInit (uniqueSorted C.flatten) }

theorem canonChart_pattern (p : List (List Int)) (C : List (List Color)) :
    (canonChart p C).pattern = p := rfl

theorem canonChart_rows (p : List (List Int)) (C : List (List Color)) :
    (canonChart p C).rows = p.length := rfl

theorem canonChart_cols (p : List (List Int)) (C : List (List Color)) :
    (canonChart p C).cols = (p.headD []).length := rfl

theorem canonChart_indices (p : List (List Int)) (C : List (List Color)) :
    (canonChart p C).color_indices =
      C.map (List.map (lookupIdx (paletteInit (uniqueSorted C.flatten)))) := rfl

theorem canonChart_palette (p : List (List Int)) (C : List (List Color)) :
    (canonChart p C).color_palette = paletteInit (uniqueSorted C.flatten) := rfl

theorem chart_to_dict_color_tags (g : KnittingChart) :
    (chart_to_dict g).color_tags =
      mkGrid g.rows g.cols fun i j =>
        truncStr 4 (g.color_palette.short_tags.getD
          (getCell g.color_indices i j).toNat "") := rfl

/-- Evaluation of `chartInit` on a full, well-shaped color array. -/
theorem chartInit_full_eval (pattern : List (List Int)) (C : List (List Color))
    (hsh : Shape C pattern.length (pattern.headD []).length) :
    chartInit pattern (.full C) = .ok (canonChart pattern C) := by
  simp only [chartInit, canonChart]
  rw [if_pos hsh]

/-- Inversion: a successful construction is a full-array construction on the
(derived) per-cell color array. -/
theorem chartInit_ok_inv (pattern : List (List Int)) (colors : ChartColors)
    (g : KnittingChart) (h : chartInit pattern colors = .ok g) :
    ∃ ca : List (List Color),
      Shape ca pattern.length (pattern.headD []).length ∧
      g = canonChart pattern ca := by
  cases colors with
  | noColors =>
      refine ⟨mkGrid pattern.length (pattern.headD []).length
        fun _ _ => ((128 : Int), (128 : Int), (128 : Int)), shape_mkGrid _ _ _, ?_⟩
      simp only [chartInit] at h
      exact (Except.ok.inj h).symm
  | single c =>
      refine ⟨mkGrid pattern.length (pattern.headD []).length fun _ _ => c,
        shape_mkGrid _ _ _, ?_⟩
      simp only [chartInit] at h
      exact (Except.ok.inj h).symm
  | full ca =>
      simp only [chartInit] at h
      by_cases hsh : Shape ca pattern.length (pattern.headD []).length
      · rw [if_pos hsh] at h
        exact ⟨ca, hsh, (Except.ok.inj h).symm⟩
      · rw [if_neg hsh] at h
        cases h

/-- The index grid the constructor computes is always valid for the palette
it builds, independently of shapes. -/
theorem chartInit_indices_valid (ca : List (List Color)) :
    ∀ row ∈ ca.map (List.map (lookupIdx (paletteInit (uniqueSorted ca.flatten)))),
      ∀ v ∈ row,
        0 ≤ v ∧ v < ((paletteInit (uniqueSorted ca.flatten)).num_colors : Int) := by
  intro row hrow v hv
  simp only [List.mem_map] at hrow
  obtain ⟨car, hcar, rfl⟩ := hrow
  simp only [List.mem_map] at hv
  obtain ⟨c, hc, rfl⟩ := hv
  have hcf : c ∈ ca.flatten := List.mem_flatten.2 ⟨car, hcar, hc⟩
  have hcu : c ∈ uniqueSorted ca.flatten := by
    rw [uniqueSorted, (List.perm_insertionSort _ _).mem_iff, List.mem_dedup]
    exact hcf
  have hcu' : c ∈ (paletteInit (uniqueSorted ca.flatten)).assigned_colors := hcu
  obtain ⟨i, hi⟩ := idxOf?_isSome_of_mem hcu'
  have hilt := idxOf?_lt_length hi
  simp only [lookupIdx, get_index_by_color, hi]
  constructor
  · exact Int.natCast_nonneg i
  · have : (paletteInit (uniqueSorted ca.flatten)).num_colors =
        (uniqueSorted ca.flatten).length := rfl
    rw [this]
    exact_mod_cast hilt

/-- A successful construction from a rectangular pattern satisfies the full
chart invariant (in particular every color index is valid). -/
theorem chartInit_WF (pattern : List (List Int)) (colors : ChartColors)
    (g : KnittingChart)
    (hrect : Shape pattern pattern.length (pattern.headD []).length)
    (h : chartInit pattern colors = .ok g) : ChartWF g := by
  obtain ⟨ca, hsh, rfl⟩ := chartInit_ok_inv pattern colors g h
  refine ⟨hrect, ?_, paletteInit_WF _, chartInit_indices_valid ca⟩
  constructor
  · simpa [canonChart] using hsh.1
  · intro row hrow
    simp only [canonChart, List.mem_map] at hrow
    obtain ⟨car, hcar, rfl⟩ := hrow
    simpa [canonChart] using hsh.2 car hcar

/-! ## Mutation operations preserve the invariant -/

theorem forall_mem_setCell {α : Type} [Inhabited α] {m : List (List α)} {P : α → Prop}
    (hm : ∀ row ∈ m, ∀ v ∈ row, P v) {i j : Nat} {x : α} (hx : P x) :
    ∀ row ∈ setCell m i j x, ∀ v ∈ row, P v := by
  intro row hrow v hv
  rcases List.mem_or_eq_of_mem_set hrow with h | h
  · exact hm row h v hv
  · subst h
    rcases List.mem_or_eq_of_mem_set hv with h2 | h2
    · by_cases him : i < m.length
      · refine hm _ ?_ v h2
        rw [List.getD_eq_getElem _ _ him]
        exact List.getElem_mem him
      · rw [List.getD_eq_default _ _ (by omega)] at h2
        simp at h2
    · subst h2
      exact hx

/-- `add_color` keeps the palette well-formed, never shrinks it, and returns
a valid index into the result. -/
theorem add_color_WF (p : KnittingColorPalette) (c : Color) (hp : PaletteWF p) :
    PaletteWF (add_color p c).1 ∧
    p.num_colors ≤ (add_color p c).1.num_colors ∧
    0 ≤ (add_color p c).2 ∧
    (add_color p c).2 < ((add_color p c).1.num_colors : Int) := by
  cases hx : idxOf? p.assigned_colors c with
  | some i =>
      have hlt := idxOf?_lt_length hx
      simp only [add_color, hx]
      refine ⟨hp, le_refl _, Int.natCast_nonneg i, ?_⟩
      rw [hp.1]
      exact_mod_cast hlt
  | none =>
      simp only [add_color, hx]
      obtain ⟨h1, h2, h3⟩ := hp
      refine ⟨⟨by simp [h1], by simp [h2], by simp [h3]⟩, by simp, by positivity, ?_⟩
      exact_mod_cast Nat.lt_succ_self p.num_colors

theorem set_stitch_color_phase_WF (g1 : KnittingChart) (r c : Nat)
    (orig : Int) (rgb : Color) (hwf1 : ChartWF g1) :
    ChartWF (set_stitch_color_phase g1 r c orig rgb).1 := by
  obtain ⟨hsp, hsi, hpal, hvalid⟩ := hwf1
  have hadd := add_color_WF g1.color_palette rgb hpal
  have hpe : (match get_index_by_color g1.color_palette rgb with
      | some i => (g1.color_palette, (i : Int))
      | none => add_color g1.color_palette rgb) = add_color g1.color_palette rgb := by
    cases hx : idxOf? g1.color_palette.assigned_colors rgb with
    | some i =>
        simp only [get_index_by_color, hx]
        simp only [add_color, hx]
    | none =>
        simp only [get_index_by_color, hx]
  have hg2 : ChartWF { g1 with
      color_palette := (add_color g1.color_palette rgb).1,
      color_indices := setCell g1.color_indices r c (add_color g1.color_palette rgb).2 } := by
    refine ⟨hsp, setCell_shape hsi r c _, hadd.1, ?_⟩
    refine forall_mem_setCell ?_ ⟨hadd.2.2.1, hadd.2.2.2⟩
    intro row hrow v hv
    have := hvalid row hrow v hv
    refine ⟨this.1, lt_of_lt_of_le this.2 ?_⟩
    exact_mod_cast hadd.2.1
  unfold set_stitch_color_phase
  rw [hpe]
  simp only []
  split
  · exact optimize_WF _ hg2
  · exact hg2

theorem set_stitch_WF (g : KnittingChart) (row col : Int) (st : Option String)
    (rgb : Option Color) (hwf : ChartWF g) :
    ChartWF (set_stitch g row col st rgb).1 := by
  unfold set_stitch
  by_cases hb : ¬(0 ≤ row ∧ row < (g.rows : Int) ∧ 0 ≤ col ∧ col < (g.cols : Int))
  · rw [if_pos hb]
    exact hwf
  · rw [if_neg hb]
    cases st with
    | none =>
        cases rgb with
        | none => exact hwf
        | some rgbv => exact set_stitch_color_phase_WF g _ _ _ rgbv hwf
    | some s =>
        have hwf1 : ChartWF { g with
            pattern := setCell g.pattern row.toNat col.toNat (stitch_to_index s) } :=
          ⟨setCell_shape hwf.1 _ _ _, hwf.2.1, hwf.2.2.1, hwf.2.2.2⟩
        by_cases hx : stitch_to_index s ≠ -1
        · simp only [if_pos hx]
          cases rgb with
          | none => exact hwf1
          | some rgbv => exact set_stitch_color_phase_WF _ _ _ _ rgbv hwf1
        · simp only [if_neg hx]
          exact hwf

theorem spliceGrid_shape {α : Type} [Inhabited α] {m : List (List α)} {r c : Nat}
    (hs : Shape m r c) (rs cs : Nat × Nat) (src : List (List α)) :
    Shape (spliceGrid m rs cs src) r c := by
  constructor
  · simp only [spliceGrid, List.length_map, List.length_range]
    exact hs.1
  · intro row hrow
    simp only [spliceGrid, List.mem_map, List.mem_range] at hrow
    obtain ⟨i, hi, rfl⟩ := hrow
    simp only [List.length_map, List.length_range]
    rw [List.getD_eq_getElem _ _ hi]
    exact hs.2 _ (List.getElem_mem hi)

/-- Re-express the shape of a parallel grid against a grid's own derived
dimensions (numpy's `shape` of the first grid). -/
theorem shape_transfer {α β : Type} {m : List (List α)} {n : List (List β)}
    {r c : Nat} (hm : Shape m r c) (hn : Shape n r c) :
    Shape n m.length ((m.headD []).length) := by
  cases m with
  | nil =>
      have hr : r = 0 := by simpa using hm.1.symm
      subst hr
      constructor
      · simpa using hn.1
      · intro row hrow
        have hz : n.length = 0 := hn.1
        rw [List.length_eq_zero] at hz
        subst hz
        simp at hrow
  | cons x xs =>
      have hxl : x.length = c := hm.2 x (List.mem_cons_self _ _)
      constructor
      · rw [hn.1, ← hm.1]
      · intro row hrow
        simp only [List.headD_cons]
        rw [hn.2 row hrow, ← hxl]

/-- `__setitem__` always leaves the target well-formed: its failures precede
all mutation, and its success path is a full constructor rebuild from a
well-shaped composite color array. The source chart may be arbitrary. -/
theorem setitem_WF (g : KnittingChart) (key : (Nat × Nat) × (Nat × Nat))
    (v : SetValue) (hwf : ChartWF g) : ChartWF (setitem g key v).1 := by
  obtain ⟨hsp, hsi, hpal, hvalid⟩ := hwf
  cases v with
  | nonChart => exact ⟨hsp, hsi, hpal, hvalid⟩
  | chart src =>
      simp only [setitem]
      by_cases hmis : patShape src.pattern ≠
          (sliceLen key.1 g.pattern.length, sliceLen key.2 (g.pattern.headD []).length)
      · rw [if_pos hmis]
        exact ⟨hsp, hsi, hpal, hvalid⟩
      · rw [if_neg hmis]
        -- the spliced pattern and the spliced full-grid colors keep the
        -- target's rectangular shape, so the constructor rebuild succeeds
        have hps : Shape (spliceGrid g.pattern key.1 key.2 src.pattern) g.rows g.cols :=
          spliceGrid_shape hsp key.1 key.2 src.pattern
        have hcs : Shape (spliceGrid (get_symbolic_colors g none none) key.1 key.2
            (get_symbolic_colors src none none)) g.rows g.cols :=
          spliceGrid_shape (shape_mkGrid _ _ _) key.1 key.2 _
        have hok := chartInit_full_eval (spliceGrid g.pattern key.1 key.2 src.pattern)
          (spliceGrid (get_symbolic_colors g none none) key.1 key.2
            (get_symbolic_colors src none none))
          (shape_transfer hps hcs)
        rw [hok]
        refine ⟨hps, ?_, paletteInit_WF _, chartInit_indices_valid _⟩
        constructor
        · simpa [canonChart] using hcs.1
        · intro row hrow
          simp only [canonChart, List.mem_map] at hrow
          obtain ⟨car, hcar, rfl⟩ := hrow
          simpa using hcs.2 car hcar

/-! ## Claim C2: index validity under operation sequences -/

/-- One call in a C2 operation sequence: `set_stitch`, `optimize_color_palette`
or a rectangular `__setitem__` write (with an arbitrary value, chart or not). -/
inductive ChartOp where
  | setStitchOp (row col : Int) (stitch_type : Option String) (color_rgb : Option Color)
  | optimizeOp
  | setItemOp (key : (Nat × Nat) × (Nat × Nat)) (value : SetValue)

/-- The state after a call, whether it succeeded or raised (mutations made
before a raise are kept, as in Python). -/
def applyOp (g : KnittingChart) : ChartOp → KnittingChart
  | .setStitchOp row col st rgb => (set_stitch g row col st rgb).1
  | .optimizeOp => (optimize_color_palette g).1
  | .setItemOp key v => (setitem g key v).1

def applyOps (g : KnittingChart) : List ChartOp → KnittingChart
  | [] => g
  | op :: rest => applyOps (applyOp g op) rest

theorem applyOp_WF (g : KnittingChart) (op : ChartOp) (hwf : ChartWF g) :
    ChartWF (applyOp g op) := by
  cases op with
  | setStitchOp row col st rgb => exact set_stitch_WF g row col st rgb hwf
  | optimizeOp => exact optimize_WF g hwf
  | setItemOp key v => exact setitem_WF g key v hwf

theorem applyOps_WF (g : KnittingChart) (ops : List ChartOp) (hwf : ChartWF g) :
    ChartWF (applyOps g ops) := by
  induction ops generalizing g with
  | nil => exact hwf
  | cons op rest ih => exact ih _ (applyOp_WF g op hwf)

/-- C2 — index validity invariant: starting from any chart built by the
documented constructor (on a rectangular pattern) and applying any finite
sequence of `set_stitch` / `optimize_color_palette` / rectangular-write calls
(each succeeding or raising; written values may be arbitrary charts or
non-charts), every value stored in `color_indices` satisfies
`0 ≤ v < palette.count`. -/
theorem ops_preserve_index_validity (pattern : List (List Int))
    (colors : ChartColors) (g0 : KnittingChart) (ops : List ChartOp)
    (hrect : Shape pattern pattern.length (pattern.headD []).length)
    (hinit : chartInit pattern colors = .ok g0) :
    IdxValid (applyOps g0 ops) :=
  (applyOps_WF g0 ops (chartInit_WF pattern colors g0 hrect hinit)).2.2.2

/-- Witness for C2: a 2×2 default chart through a stitch write, a color write
introducing a new color, a compaction, a failing out-of-bounds write, a
failing rectangular write, and a successful rectangular write. -/
theorem ops_preserve_index_validity_witness :
    IdxValid (applyOps
      (⟨[[0, 1], [1, 0]], 2, 2, [[0, 0], [0, 0]], paletteInit [(128, 128, 128)]⟩ :
        KnittingChart)
      [.setStitchOp 0 0 (some "P") none,
       .setStitchOp 0 1 none (some (255, 0, 0)),
       .optimizeOp,
       .setStitchOp 5 5 (some "K") none,
       .setItemOp ((0, 2), (0, 2)) .nonChart,
       .setItemOp ((0, 1), (0, 1)) (.chart ⟨[[8]], 1, 1, [[0]], paletteInit [(0, 0, 0)]⟩)]) :=
  ops_preserve_index_validity [[0, 1], [1, 0]] ChartColors.noColors _ _
    (by decide) (by decide)

/-! ## Serialization round trip (Claim C1): helper lemmas -/

theorem mkGrid_length {α : Type} (r c : Nat) (f : Nat → Nat → α) :
    (mkGrid r c f).length = r := by
  simp [mkGrid]

theorem headD_length_of_shape {α : Type} {m : List (List α)} {r c : Nat}
    (hs : Shape m r c) (hr : 0 < r) : (m.headD []).length = c := by
  cases m with
  | nil =>
      exfalso
      have := hs.1
      simp at this
      omega
  | cons x xs => exact hs.2 x (List.mem_cons_self _ _)

theorem shape_map {α β : Type} (f : α → β) {m : List (List α)} {r c : Nat}
    (hs : Shape m r c) : Shape (m.map (List.map f)) r c := by
  constructor
  · simpa using hs.1
  · intro row hrow
    simp only [List.mem_map] at hrow
    obtain ⟨car, hcar, rfl⟩ := hrow
    simpa using hs.2 car hcar

theorem getCell_map {α β : Type} [Inhabited α] [Inhabited β] (f : α → β)
    {m : List (List α)} {r c : Nat} (hs : Shape m r c) {i j : Nat}
    (hi : i < r) (hj : j < c) :
    getCell (m.map (List.map f)) i j = f (getCell m i j) := by
  have him : i < m.length := by rw [hs.1]; exact hi
  have hjm : j < m[i].length := by
    have := hs.2 _ (List.getElem_mem him)
    omega
  rw [getCell_eq_getElem him hjm]
  have him' : i < (m.map (List.map f)).length := by simpa using him
  have hjm' : j < ((m.map (List.map f))[i]).length := by simpa using hjm
  rw [getCell_eq_getElem him' hjm']
  simp

theorem mkGrid_congr {α : Type} (r c : Nat) (f h : Nat → Nat → α)
    (he : ∀ i < r, ∀ j < c, f i j = h i j) : mkGrid r c f = mkGrid r c h := by
  unfold mkGrid
  apply List.map_congr_left
  intro i hi
  apply List.map_congr_left
  intro j hj
  rw [List.mem_range] at hi hj
  exact he i hi j hj

theorem mkGrid_getCell {α : Type} [Inhabited α] {m : List (List α)} {r c : Nat}
    (hs : Shape m r c) : mkGrid r c (fun i j => getCell m i j) = m := by
  apply List.ext_getElem
  · simp [mkGrid, hs.1]
  · intro i hi1 hi2
    have hir : i < r := by simpa [mkGrid] using hi1
    have hrl : m[i].length = c := hs.2 _ (List.getElem_mem hi2)
    apply List.ext_getElem
    · simp [mkGrid, hrl]
    · intro j hj1 hj2
      have hjc : j < c := by
        simpa [mkGrid] using hj1
      have hcell := getCell_mkGrid (fun i j => getCell m i j) hir hjc
      simp only [] at hcell
      rw [getCell_eq_getElem hi1 hj1] at hcell
      rw [getCell_eq_getElem hi2 hj2] at hcell
      exact hcell

theorem mkGrid_headD_length {α : Type} (r c : Nat) (f : Nat → Nat → α)
    (hr : 0 < r) : ((mkGrid r c f).headD []).length = c :=
  headD_length_of_shape (shape_mkGrid r c f) hr

theorem truncStr_of_le {n : Nat} {s : String} (h : s.data.length ≤ n) :
    truncStr n s = s :=
  string_ext (by simp [truncStr, List.take_of_length_le h])

/-- The stitch-name round trip through the `<U10` text cell is the identity
on rendered names. -/
theorem text_roundtrip_cell (v : Int) :
    index_to_stitch (stitch_to_index (truncStr 10 (index_to_stitch v))) =
      index_to_stitch v := by
  by_cases hv : 0 ≤ v ∧ v < (STITCH_ORDER.length : Int)
  · obtain ⟨h1, h2⟩ := hv
    have h9 : v < 9 := by simpa [STITCH_ORDER] using h2
    interval_cases v <;> decide
  · have h1 : index_to_stitch v = "Unknown" := by
      rw [index_to_stitch, if_neg hv]
    rw [h1]
    decide

/-- `palette.from_dict(palette.to_dict())` restores a well-formed palette
exactly (names and tags are reinstalled verbatim). -/
theorem palette_from_to_dict (p : KnittingColorPalette) (hp : PaletteWF p) :
    palette_from_dict (palette_to_dict p) = .ok p := by
  unfold palette_from_dict palette_to_dict
  rw [if_pos ⟨hp.2.1, hp.2.2⟩]
  congr 1
  cases p with
  | mk ac nc fn st =>
      have h1 : nc = ac.length := hp.1
      rw [KnittingColorPalette.mk.injEq]
      exact ⟨rfl, h1.symm, rfl, rfl⟩

theorem mem_uniqueSorted {l : List Color} {v : Color} :
    v ∈ uniqueSorted l ↔ v ∈ l := by
  rw [uniqueSorted, (List.perm_insertionSort _ _).mem_iff, List.mem_dedup]

theorem nodup_uniqueSorted (l : List Color) : (uniqueSorted l).Nodup :=
  (List.perm_insertionSort _ _).nodup_iff.2 (List.nodup_dedup l)

/-! ## Claim C1: serialization round trip -/

/-- C1 counterexample — a consistent 1×1 chart whose palette carries the
non-canonical tag `"Q"`. The round trip rebuilds the palette through the
constructor, which recomputes tags by nearest-reference naming, so the
round-tripped `color_tags` grid is `[["B"]]`, not `[["Q"]]`. -/
def c1cex : KnittingChart :=
  ⟨[[0]], 1, 1, [[0]], ⟨[(0, 0, 0)], 1, ["Q"], ["Q"]⟩⟩

/-- C1 counterexample theorem: the round trip does not preserve `color_tags`
for every consistent chart. -/
theorem chart_roundtrip_cex :
    ((chart_from_dict (chart_to_dict c1cex)).map fun g' =>
        (chart_to_dict g').color_tags) ≠
      .ok (chart_to_dict c1cex).color_tags := by
  decide

/-- C1 amended — for every chart built by the documented constructor from a
nonempty rectangular pattern and a per-cell color array, provided every
assigned short tag fits the 4-character `<U4` dtype, the grid rebuilt by
`from_dict(to_dict())` has the same `get_text_pattern` output for every
row/column range and the same full-grid `color_tags` (the `to_dict` tags
grid). Charts whose palette tags are not the canonical constructor-assigned
ones (e.g. hand-edited or loaded records) are not covered, as the
counterexample shows. -/
theorem chart_from_dict_eval (d : ChartDict) (p : KnittingColorPalette)
    (hp : palette_from_dict d.palette = .ok p) :
    chart_from_dict d =
      chartInit (d.pattern.map (List.map stitch_to_index))
        (.full (mkGrid d.color_tags.length (d.color_tags.headD []).length
          fun i j =>
            match get_color_by_tag p (getCell d.color_tags i j) with
            | some rgb => rgb
            | none => ((128 : Int), (128 : Int), (128 : Int)))) := by
  simp only [chart_from_dict, hp]

theorem chart_roundtrip (pattern : List (List Int)) (C : List (List Color))
    (g g' : KnittingChart) (cr rr : Option (Nat × Nat))
    (hpos : 0 < pattern.length)
    (_hrect : Shape pattern pattern.length (pattern.headD []).length)
    (hC : Shape C pattern.length (pattern.headD []).length)
    (hg : chartInit pattern (.full C) = .ok g)
    (htags : ∀ t ∈ g.color_palette.short_tags, t.data.length ≤ 4)
    (hg' : chart_from_dict (chart_to_dict g) = .ok g') :
    get_text_pattern g' cr rr = get_text_pattern g cr rr ∧
    (chart_to_dict g').color_tags = (chart_to_dict g).color_tags := by
  rw [chartInit_full_eval pattern C hC] at hg
  have hgval := (Except.ok.inj hg).symm
  subst hgval
  have hUnodup : (uniqueSorted C.flatten).Nodup := nodup_uniqueSorted _
  have htagnd : (paletteInit (uniqueSorted C.flatten)).short_tags.Nodup :=
    paletteInit_tags_pairwise_ne _ hUnodup
  have htaglen : (paletteInit (uniqueSorted C.flatten)).short_tags.length =
      (uniqueSorted C.flatten).length := paletteInit_tags_length _
  have hdlen : (chart_to_dict (canonChart pattern C)).color_tags.length =
      pattern.length := mkGrid_length _ _ _
  have hdhead : ((chart_to_dict (canonChart pattern C)).color_tags.headD []).length =
      (pattern.headD []).length := mkGrid_headD_length _ _ _ hpos
  -- per-cell: the tag written by to_dict resolves back to the cell's color
  have hcell : ∀ i < pattern.length, ∀ j < (pattern.headD []).length,
      (match get_color_by_tag (paletteInit (uniqueSorted C.flatten))
          (getCell (chart_to_dict (canonChart pattern C)).color_tags i j) with
        | some rgb => rgb
        | none => ((128 : Int), (128 : Int), (128 : Int))) = getCell C i j := by
    intro i hi j hj
    have hv : getCell C i j ∈ C.flatten := (mem_flatten_shape hC).2 ⟨i, hi, j, hj, rfl⟩
    have hvU : getCell C i j ∈ uniqueSorted C.flatten := mem_uniqueSorted.2 hv
    obtain ⟨k, hk⟩ := idxOf?_isSome_of_mem hvU
    have hklt := idxOf?_lt_length hk
    have hUk := idxOf?_getElem hk hklt
    have hkt : k < (paletteInit (uniqueSorted C.flatten)).short_tags.length := by
      rw [htaglen]
      exact hklt
    have hassign : (paletteInit (uniqueSorted C.flatten)).assigned_colors =
        uniqueSorted C.flatten := rfl
    have h1 : getCell (chart_to_dict (canonChart pattern C)).color_tags i j =
        truncStr 4 ((paletteInit (uniqueSorted C.flatten)).short_tags.getD
          (getCell (canonChart pattern C).color_indices i j).toNat "") :=
      getCell_mkGrid _ hi hj
    have h2 : getCell (canonChart pattern C).color_indices i j = (k : Int) := by
      show getCell (C.map (List.map (lookupIdx (paletteInit (uniqueSorted C.flatten)))))
          i j = _
      rw [getCell_map _ hC hi hj]
      simp only [lookupIdx, get_index_by_color, hassign, hk]
    have h3 : (paletteInit (uniqueSorted C.flatten)).short_tags.getD k "" =
        (paletteInit (uniqueSorted C.flatten)).short_tags[k] :=
      List.getD_eq_getElem _ _ hkt
    have h4 : truncStr 4 ((paletteInit (uniqueSorted C.flatten)).short_tags[k]) =
        (paletteInit (uniqueSorted C.flatten)).short_tags[k] :=
      truncStr_of_le (htags _ (List.getElem_mem hkt))
    have h5 : get_color_by_tag (paletteInit (uniqueSorted C.flatten))
        ((paletteInit (uniqueSorted C.flatten)).short_tags[k]) =
        some (getCell C i j) := by
      unfold get_color_by_tag
      rw [idxOf?_getElem_self htagnd hkt]
      simp only [Option.map_some', hassign]
      rw [List.getD_eq_getElem _ _ hklt, hUk]
    rw [h1, h2]
    have htn : ((k : Int)).toNat = k := rfl
    rw [htn, h3, h4, h5]
  -- the rebuilt color array is C itself
  have hcolors : (mkGrid (chart_to_dict (canonChart pattern C)).color_tags.length
      ((chart_to_dict (canonChart pattern C)).color_tags.headD []).length
      fun i j =>
        match get_color_by_tag (paletteInit (uniqueSorted C.flatten))
            (getCell (chart_to_dict (canonChart pattern C)).color_tags i j) with
        | some rgb => rgb
        | none => ((128 : Int), (128 : Int), (128 : Int))) = C := by
    rw [hdlen, hdhead]
    rw [mkGrid_congr _ _ _ _ hcell]
    exact mkGrid_getCell hC
  have hpal : palette_from_dict (chart_to_dict (canonChart pattern C)).palette =
      .ok (paletteInit (uniqueSorted C.flatten)) :=
    palette_from_to_dict _ (paletteInit_WF _)
  have hfd := chart_from_dict_eval (chart_to_dict (canonChart pattern C))
    (paletteInit (uniqueSorted C.flatten)) hpal
  rw [hcolors] at hfd
  have hsp2 : Shape ((chart_to_dict (canonChart pattern C)).pattern.map
      (List.map stitch_to_index)) pattern.length (pattern.headD []).length :=
    shape_map _ (shape_mkGrid _ _ _)
  have hok2 := chartInit_full_eval
    ((chart_to_dict (canonChart pattern C)).pattern.map (List.map stitch_to_index)) C
    (shape_transfer hsp2 hC)
  rw [hfd, hok2] at hg'
  have hg'val := Except.ok.inj hg'
  subst hg'val
  have hlen2 : ((chart_to_dict (canonChart pattern C)).pattern.map
      (List.map stitch_to_index)).length = pattern.length := hsp2.1
  have hhead2 : (((chart_to_dict (canonChart pattern C)).pattern.map
      (List.map stitch_to_index)).headD []).length = (pattern.headD []).length :=
    headD_length_of_shape hsp2 hpos
  constructor
  · -- text pattern agrees for every range
    unfold get_text_pattern
    simp only [canonChart_pattern, canonChart_rows, canonChart_cols]
    rw [hlen2, hhead2]
    apply mkGrid_congr
    intro i hi j hj
    by_cases hcond : (rr.getD (0, pattern.length)).1 ≤ i ∧
        i < (rr.getD (0, pattern.length)).2 ∧
        (cr.getD (0, (pattern.headD []).length)).1 ≤ j ∧
        j < (cr.getD (0, (pattern.headD []).length)).2
    · rw [if_pos hcond, if_pos hcond]
      have e1 : getCell ((chart_to_dict (canonChart pattern C)).pattern.map
          (List.map stitch_to_index)) i j =
          stitch_to_index (truncStr 10 (index_to_stitch (getCell pattern i j))) := by
        have hdp : Shape (chart_to_dict (canonChart pattern C)).pattern
            pattern.length (pattern.headD []).length := shape_mkGrid _ _ _
        rw [getCell_map _ hdp hi hj]
        congr 1
        have e2 : getCell (chart_to_dict (canonChart pattern C)).pattern i j =
            if (0 : Nat) ≤ i ∧ i < pattern.length ∧ (0 : Nat) ≤ j ∧
                j < (pattern.headD []).length then
              truncStr 10 (index_to_stitch (getCell pattern i j))
            else "Unknown" := getCell_mkGrid _ hi hj
        rw [e2, if_pos ⟨Nat.zero_le i, hi, Nat.zero_le j, hj⟩]
      rw [e1]
      exact congrArg (truncStr 10) (text_roundtrip_cell (getCell pattern i j))
    · rw [if_neg hcond, if_neg hcond]
  · -- color tags agree on the full grid
    rw [chart_to_dict_color_tags, chart_to_dict_color_tags]
    simp only [canonChart_rows, canonChart_cols, canonChart_indices, canonChart_palette]
    rw [hlen2, hhead2]

def c1wit : KnittingChart := canonChart [[0, 1]] [[(255, 0, 0), (0, 128, 0)]]

def c1wit' : KnittingChart :=
  canonChart ((chart_to_dict c1wit).pattern.map (List.map stitch_to_index))
    [[(255, 0, 0), (0, 128, 0)]]

/-- Witness for C1's amended theorem on the spec's red/green scenario chart. -/
theorem chart_roundtrip_witness :
    get_text_pattern c1wit' (some (0, 1)) (some (0, 1)) =
      get_text_pattern c1wit (some (0, 1)) (some (0, 1)) ∧
    (chart_to_dict c1wit').color_tags = (chart_to_dict c1wit).color_tags :=
  chart_roundtrip [[0, 1]] [[(255, 0, 0), (0, 128, 0)]] c1wit c1wit'
    (some (0, 1)) (some (0, 1)) (by decide) (by decide) (by decide) (by decide)
    (by decide) (by decide)

end Knitvis
